import Mathlib

-- Verification development for the Bybit funding-rate trading bot
-- (automation/node-bot).  The engine state and its operations are embedded
-- shallowly: JavaScript numbers are modelled as exact rationals, epoch
-- millisecond timestamps as integers, the JavaScript Map objects as
-- association lists, and every network call as an oracle argument.  The
-- single-threaded callback model of Node is captured by treating each timer
-- or poll callback as one atomic transition of an explicit step relation.

-- ### Association-list model of the JavaScript Map objects

/-- Lookup in an association list, the model of Map.get. -/
def mapLookup {α : Type} : List (String × α) → String → Option α
  | [], _ => none
  | (k, v) :: rest, key => if k = key then some v else mapLookup rest key

/-- Removal from an association list, the model of Map.delete. -/
def mapDelete {α : Type} : List (String × α) → String → List (String × α)
  | [], _ => []
  | (k, v) :: rest, key =>
    if k = key then mapDelete rest key else (k, v) :: mapDelete rest key

/-- Insertion into an association list, the model of Map.set. -/
def mapSet {α : Type} (m : List (String × α)) (key : String) (v : α) :
    List (String × α) :=
  (key, v) :: mapDelete m key

theorem mapLookup_delete {α : Type} (m : List (String × α)) (key k : String) :
    mapLookup (mapDelete m key) k = if k = key then none else mapLookup m k := by
  induction m with
  | nil => simp [mapDelete, mapLookup]
  | cons p rest ih =>
    obtain ⟨pk, pv⟩ := p
    by_cases h2 : k = key
    · subst h2
      by_cases h1 : pk = k <;> simp [mapDelete, mapLookup, h1, ih]
    · have h2s : ¬ key = k := fun h => h2 h.symm
      by_cases h1 : pk = key
      · subst h1
        simp [mapDelete, mapLookup, h2, h2s, ih]
      · by_cases h3 : pk = k <;> simp [mapDelete, mapLookup, h1, h2, h3, ih]

theorem mapLookup_set {α : Type} (m : List (String × α)) (key k : String) (v : α) :
    mapLookup (mapSet m key v) k = if k = key then some v else mapLookup m k := by
  by_cases h : k = key
  · simp [mapSet, mapLookup, h]
  · have h2 : ¬ key = k := fun h3 => h (h3.symm)
    simp [mapSet, mapLookup, mapLookup_delete, h, h2]

theorem mapLookup_delete_self {α : Type} (m : List (String × α)) (key : String) :
    mapLookup (mapDelete m key) key = none := by
  simp [mapLookup_delete]

theorem isSome_of_delete {α : Type} {m : List (String × α)} {key k : String}
    (h : (mapLookup (mapDelete m key) k).isSome = true) :
    (mapLookup m k).isSome = true := by
  rw [mapLookup_delete] at h
  by_cases hk : k = key
  · simp [hk] at h
  · simpa [hk] using h

-- ### Model of the JavaScript numeric string parsing used by the bot

/-- Value of a nonempty digit run, or none when a character is not a digit. -/
def digitsToNat : List Char → Option ℕ
  | [] => none
  | cs =>
    if cs.all Char.isDigit then
      some (cs.foldl (fun n c => n * 10 + (c.toNat - 48)) 0)
    else none

/-- Split a character list at the first dot, keeping the remainder. -/
def splitAtDot : List Char → List Char × Option (List Char)
  | [] => ([], none)
  | c :: rest =>
    if c = '.' then ([], some rest)
    else
      let r := splitAtDot rest
      (c :: r.1, r.2)

/-- Unsigned decimal literal of the form digits or digits dot digits. -/
def jsNumberCore (body : List Char) : Option ℚ :=
  match splitAtDot body with
  | (intPart, none) => (digitsToNat intPart).map (fun n => (n : ℚ))
  | (intPart, some fracPart) =>
    match digitsToNat intPart, digitsToNat fracPart with
    | some i, some f => some ((i : ℚ) + (f : ℚ) / ((10 : ℚ) ^ fracPart.length))
    | _, _ => none

/-- Model of the JavaScript Number conversion on strings, restricted to plain
signed decimal literals, which is the shape the exchange returns for sizes,
fees and timestamps.  Strings outside this grammar, such as n/a or garbage
words, are modelled as unparseable, matching the NaN they produce in
JavaScript; exotic parseable forms (exponents, hex, whitespace padding) are
outside the model. -/
def jsNumber (s : String) : Option ℚ :=
  match s.data with
  | '-' :: body => (jsNumberCore body).map (fun v => -v)
  | body => jsNumberCore body

/-- Model of parseFundingTimestamp (index.ts lines 92 to 100).  The numeric
branch handles the digit-string epochs Bybit returns, with the ten-character
seconds form scaled to milliseconds; the Date fallback is modelled as failing,
which agrees with JavaScript on strings that are neither numeric literals nor
valid dates. -/
def parseFundingTimestamp (value : Option String) : Option ℤ :=
  match value with
  | none => none
  | some s =>
    if s.data = [] then none
    else
      match digitsToNat s.data with
      | some n => some (if s.data.length = 10 then (n : ℤ) * 1000 else (n : ℤ))
      | none => none

-- ### Constants of the strategy (index.ts lines 50 to 58)

def PRE_FUNDING_MS : ℤ := 5000

def POST_FUNDING_MS : ℤ := 5000

def FUNDING_THRESHOLD : ℚ := 5 / 1000

def TRADE_NOTIONAL_USD : ℚ := 500

def MAX_CLOSE_ATTEMPTS : ℕ := 5

def MAX_DRAWDOWN_PCT : ℚ := 3 / 100

-- ### Trade sides and ticker snapshots

/-- TradeSide from lib bybit-trading. -/
inductive TradeSide
  | Buy
  | Sell
deriving DecidableEq, Repr

/-- BybitFundingTicker from lib bybit-top-funding: price fields are optional
because transformTicker leaves them undefined when unparseable. -/
structure BybitFundingTicker where
  symbol : String
  fundingRate : ℚ
  fundingRateAbs : ℚ
  markPrice : Option ℚ := none
  lastPrice : Option ℚ := none
  bidPrice : Option ℚ := none
  askPrice : Option ℚ := none
  nextFundingTime : Option String := none
deriving DecidableEq, Repr

/-- Model of the JavaScript nullish-coalescing operator on option values:
the right operand is used only when the left is null or undefined. -/
def nullish {α : Type} : Option α → Option α → Option α
  | some v, _ => some v
  | none, b => b

-- ### Gateway helpers from lib bybit-trading

/-- InstrumentFilters from lib bybit-trading; getInstrumentFilters rejects
responses in which any of the three values is missing or zero. -/
structure InstrumentFilters where
  minOrderQty : ℚ
  qtyStep : ℚ
  priceStep : ℚ
deriving DecidableEq, Repr

/-- The conformed quantity computed inside normaliseQty (lib bybit-trading
lines 122 to 126): floor to the step, then bump to the minimum unit count,
where the minimum unit count subtracts the literal 1e-9 before ceiling. -/
def conformedQty (rawQty : ℚ) (filters : InstrumentFilters) : ℚ :=
  let units : ℤ := ⌊rawQty / filters.qtyStep⌋
  let minUnits : ℤ := ⌈filters.minOrderQty / filters.qtyStep - 1 / 1000000000⌉
  ((max units minUnits : ℤ) : ℚ) * filters.qtyStep

/-- Model of normaliseQty (lib bybit-trading lines 119 to 135).  The thrown
error message and the precision component, which is used only for decimal
formatting of the request body, are elided. -/
def normaliseQty (rawQty : ℚ) (filters : InstrumentFilters) : Except Unit ℚ :=
  if conformedQty rawQty filters < filters.minOrderQty then Except.error ()
  else Except.ok (conformedQty rawQty filters)

/-- Model of normalisePrice (lib bybit-trading lines 137 to 142); the
JavaScript Math.round rounds half toward positive infinity. -/
def normalisePrice (rawPrice : ℚ) (priceStep : ℚ) : ℚ :=
  ((⌊rawPrice / priceStep + 1 / 2⌋ : ℤ) : ℚ) * priceStep

/-- LimitOrderInput from lib bybit-trading. -/
structure LimitOrderInput where
  symbol : String
  side : TradeSide
  price : ℚ
  qty : ℚ
  reduceOnly : Bool
deriving DecidableEq, Repr

/-- The parts of the placeLimitOrder result the engine reads back: the
generated order link id and the conformed quantity and price, as reconverted
by Number from the formatted strings. -/
structure OrderResult where
  orderLinkId : String
  qty : ℚ
  price : ℚ
deriving DecidableEq, Repr

/-- Failure modes of a placeLimitOrder call: the instrument-filter fetch
failed, the sizing check threw, or the venue round trip failed. -/
inductive OrderError
  | filtersError
  | sizingError
  | gatewayError
deriving DecidableEq, Repr

/-- Model of placeLimitOrder (lib bybit-trading lines 158 to 210): the
instrument-filter fetch and the venue round trip are oracle inputs, the
conforming of quantity and price is computed as in prepareLimitOrder, and the
random order link id is an oracle input. -/
def placeLimitOrder (input : LimitOrderInput)
    (filters : Except Unit InstrumentFilters) (network : Except Unit Unit)
    (linkId : String) : Except OrderError OrderResult :=
  match filters with
  | Except.error _ => Except.error OrderError.filtersError
  | Except.ok f =>
    match normaliseQty input.qty f with
    | Except.error _ => Except.error OrderError.sizingError
    | Except.ok qty =>
      match network with
      | Except.error _ => Except.error OrderError.gatewayError
      | Except.ok _ =>
        Except.ok
          { orderLinkId := linkId, qty := qty,
            price := normalisePrice input.price f.priceStep }

/-- Whether a placeLimitOrder call dispatched a request to the venue: the
filter fetch and the sizing check throw before the order request is sent. -/
def orderDispatched : Except OrderError OrderResult → Bool
  | Except.error OrderError.filtersError => false
  | Except.error OrderError.sizingError => false
  | Except.error OrderError.gatewayError => true
  | Except.ok _ => true

/-- Model of the response handling of getPositionSize (lib bybit-trading
lines 246 to 248): sizeField is the optional chain through the payload, with
none when any link is missing, in which case the literal string 0 is used;
a finite parsed value is returned in absolute value, anything else as 0. -/
def getPositionSize (sizeField : Option String) : ℚ :=
  let size := sizeField.getD "0"
  match jsNumber size with
  | some parsed => |parsed|
  | none => 0

-- ### Execution summaries (index.ts lines 154 to 187)

/-- One row of the execution list for an order, with the numeric fields
already passed through Number: none models a non-finite conversion, and a
missing raw field models as some 0 because Number of the 0 default is 0. -/
structure ExecutionRecord where
  execFee : Option ℚ
  execType : String
  execPnl : Option ℚ
deriving DecidableEq, Repr

/-- ExecutionSummary from index.ts. -/
structure ExecutionSummary where
  fee : ℚ
  tradePnl : ℚ
deriving DecidableEq, Repr

/-- Sum of the finite fee entries of one order. -/
def orderFeeSum (execs : List ExecutionRecord) : ℚ :=
  (execs.filterMap (fun e => e.execFee)).sum

/-- Sum of the finite realized pnl entries of executions of type Trade; other
execution types contribute 0. -/
def orderPnlSum (execs : List ExecutionRecord) : ℚ :=
  (execs.filterMap
    (fun e => if e.execType = "Trade" then e.execPnl else some 0)).sum

/-- Per-order summary: a failed execution query yields the zero summary, a
successful one takes the fee sum in absolute value. -/
def summarizeOne (oracle : String → Except Unit (List ExecutionRecord))
    (id : String) : ExecutionSummary :=
  match oracle id with
  | Except.error _ => { fee := 0, tradePnl := 0 }
  | Except.ok execs => { fee := |orderFeeSum execs|, tradePnl := orderPnlSum execs }

/-- Model of the JavaScript Set constructor on an array: keep the first
occurrence of each element, drop later duplicates. -/
def jsSetDedup : List String → List String
  | [] => []
  | x :: xs => x :: jsSetDedup (xs.filter (fun y => y != x))
termination_by l => l.length
decreasing_by
  simp only [List.length_cons]
  exact Nat.lt_succ_of_le (List.length_filter_le _ _)

/-- Model of summarizeExecutions (index.ts lines 154 to 187): filter out
falsy ids, deduplicate, query each order through the oracle and add up the
per-order summaries. -/
def summarizeExecutions (oracle : String → Except Unit (List ExecutionRecord))
    (orderLinkIds : List String) : ExecutionSummary :=
  let unique := jsSetDedup (orderLinkIds.filter (fun s => s != ""))
  (unique.map (summarizeOne oracle)).foldl
    (fun acc s => { fee := acc.fee + s.fee, tradePnl := acc.tradePnl + s.tradePnl })
    { fee := 0, tradePnl := 0 }

-- ### Funding fee attribution (index.ts lines 189 to 205)

/-- One funding history row with numeric fields already through Number; none
models a non-finite value. -/
structure FundingHistoryEntry where
  execTime : Option ℤ
  fundingFee : Option ℚ
deriving DecidableEq, Repr

/-- Model of fetchFundingFee: a failed history query yields 0; otherwise each
entry contributes its fee when its time lies in the window from startTime to
endTime plus five minutes, and 0 when outside the window or non-finite.  The
12 hour padding of the request window only affects which rows the venue
returns and is part of the oracle. -/
def fetchFundingFee (history : Except Unit (List FundingHistoryEntry))
    (startTime endTime : ℤ) : ℚ :=
  match history with
  | Except.error _ => 0
  | Except.ok entries =>
    (entries.map (fun e =>
      match e.execTime, e.fundingFee with
      | some t, some fee =>
        if t < startTime ∨ endTime + 5 * 60 * 1000 < t then 0 else fee
      | _, _ => 0)).sum

/-- Net profit computed by the built finalizePosition (dist automation
node-bot src index.js lines 168 to 171): gross pnl of entry and close
executions, minus total fees, minus the funding fee. -/
def netPnl (entrySummary closeSummary : ExecutionSummary) (fundingFee : ℚ) : ℚ :=
  entrySummary.tradePnl + closeSummary.tradePnl
    - (entrySummary.fee + closeSummary.fee) - fundingFee

-- ### Engine state

/-- ScheduledTrade from index.ts: the timer handle is represented by the
entry itself, since a pending open timer exists exactly for the symbols
present in the schedules map and always carries the stored funding time. -/
structure ScheduledTrade where
  fundingTime : ℤ
deriving DecidableEq, Repr

/-- ActivePosition from index.ts; closeTimer records that a close timer
handle is attached to the record. -/
structure ActivePosition where
  symbol : String
  side : TradeSide
  qty : ℚ
  entryPrice : ℚ
  fundingTime : ℤ
  openedAt : ℤ
  entryOrderLinkId : String
  closeOrderLinkIds : List String
  closeTimer : Bool
deriving DecidableEq, Repr

/-- The mutable module state of index.ts, plus three observation counters:
ordersSubmitted counts order requests dispatched to the venue, breakerTrips
counts executions of the drawdown-breach branch of finalizePosition, and
shutdownInvocations counts calls of shutdown. -/
structure EngineState where
  schedules : List (String × ScheduledTrade)
  activePositions : List (String × ActivePosition)
  latestTickers : List (String × BybitFundingTicker)
  openingSymbols : List String
  tradingEnabled : Bool
  startingEquity : Option ℚ
  drawdownLimitUsd : ℚ
  ordersSubmitted : ℕ
  breakerTrips : ℕ
  shutdownInvocations : ℕ
deriving DecidableEq, Repr

/-- State after a successful startup (main, index.ts lines 521 to 549):
empty maps, trading enabled, the starting equity captured once and the
drawdown limit set to the configured fraction of it. -/
def initState (equity : ℚ) : EngineState :=
  { schedules := [], activePositions := [], latestTickers := [],
    openingSymbols := [], tradingEnabled := true,
    startingEquity := some equity,
    drawdownLimitUsd := equity * MAX_DRAWDOWN_PCT,
    ordersSubmitted := 0, breakerTrips := 0, shutdownInvocations := 0 }

-- ### Opening a position (index.ts lines 335 to 413)

/-- Oracle inputs consumed by one run of openPosition: the refreshed ticker
fetch (outer none models a thrown fetch, inner none a null result), the
instrument-filter fetch and venue round trip of the order, the generated
order link id, and the current time. -/
structure OpenOracle where
  refreshed : Option (Option BybitFundingTicker)
  filters : Except Unit InstrumentFilters
  network : Except Unit Unit
  linkId : String
  now : ℤ

/-- The falsy-or-nonpositive guard applied to a reference price. -/
def priceGate (p : Option ℚ) : Option ℚ :=
  match p with
  | none => none
  | some v => if v ≤ 0 then none else some v

/-- Entry reference price: first available of mark, last, bid, ask. -/
def openReferencePrice (t : BybitFundingTicker) : Option ℚ :=
  priceGate (nullish t.markPrice (nullish t.lastPrice (nullish t.bidPrice t.askPrice)))

/-- Entry direction: nonnegative funding rate means short, negative long. -/
def openSide (rate : ℚ) : TradeSide :=
  if 0 ≤ rate then TradeSide.Sell else TradeSide.Buy

/-- The snapshot openPosition acts on: the refreshed ticker when the refresh
succeeded with a non-null result, the cached snapshot otherwise. -/
def openResolvedTicker (o : OpenOracle) (st : EngineState) (sym : String) :
    Option BybitFundingTicker :=
  match o.refreshed with
  | some (some t) => some t
  | _ => mapLookup st.latestTickers sym

/-- Model of openPosition as one atomic transition.  The opening-in-progress
marker is added and removed inside the same transition, so openingSymbols is
unchanged; the close timer scheduled on success is recorded in the position
record. -/
def openPosition (sym : String) (fundingTime : ℤ) (o : OpenOracle)
    (st : EngineState) : EngineState :=
  if st.tradingEnabled = false then st
  else if st.openingSymbols.contains sym || (mapLookup st.activePositions sym).isSome then st
  else
    let st1 : EngineState :=
      match o.refreshed with
      | some (some t) => { st with latestTickers := mapSet st.latestTickers sym t }
      | _ => st
    match openResolvedTicker o st sym with
    | none => st1
    | some ticker =>
      if |ticker.fundingRate| < FUNDING_THRESHOLD then st1
      else
        match openReferencePrice ticker with
        | none => st1
        | some referencePrice =>
          let attempt := placeLimitOrder
            { symbol := sym, side := openSide ticker.fundingRate,
              price := referencePrice, qty := TRADE_NOTIONAL_USD / referencePrice,
              reduceOnly := false } o.filters o.network o.linkId
          match attempt with
          | Except.error e =>
            { st1 with ordersSubmitted := st1.ordersSubmitted +
                (if orderDispatched (Except.error e) then 1 else 0) }
          | Except.ok result =>
            { st1 with
              activePositions := mapSet st1.activePositions sym
                { symbol := sym, side := openSide ticker.fundingRate,
                  qty := result.qty, entryPrice := result.price,
                  fundingTime := fundingTime, openedAt := o.now,
                  entryOrderLinkId := result.orderLinkId,
                  closeOrderLinkIds := [], closeTimer := true },
              ordersSubmitted := st1.ordersSubmitted + 1 }

-- ### Scheduling (index.ts lines 415 to 461)

/-- Outcome of one scheduleTrade call. -/
inductive ScheduleDecision
  | rejected
  | alreadyScheduled
  | declinedTooEarly
  | immediateOpen (fundingTime : ℤ)
  | armed (fundingTime : ℤ)
deriving DecidableEq, Repr

/-- The decision sequence of scheduleTrade, in source order: unparseable or
zero funding time, past funding time, and sub-threshold rate are rejected; an
existing schedule with the same funding time returns early; then the wait
until the fire time either exceeds one pre-funding window (decline), has
already elapsed (open immediately), or leads to arming a timer. -/
def scheduleTradeDecision (ticker : BybitFundingTicker)
    (existing : Option ScheduledTrade) (now : ℤ) : ScheduleDecision :=
  match parseFundingTimestamp ticker.nextFundingTime with
  | none => ScheduleDecision.rejected
  | some fundingTime =>
    if fundingTime = 0 then ScheduleDecision.rejected
    else if fundingTime ≤ now then ScheduleDecision.rejected
    else if |ticker.fundingRate| < FUNDING_THRESHOLD then ScheduleDecision.rejected
    else if existing = some { fundingTime := fundingTime } then
      ScheduleDecision.alreadyScheduled
    else if PRE_FUNDING_MS < fundingTime - PRE_FUNDING_MS - now then
      ScheduleDecision.declinedTooEarly
    else if fundingTime - PRE_FUNDING_MS - now ≤ 0 then
      ScheduleDecision.immediateOpen fundingTime
    else ScheduleDecision.armed fundingTime

/-- Model of scheduleTrade as one transition.  On the early returns the state
is unchanged; when a different funding time was already scheduled the old
timer is cancelled and the entry removed before the window checks act; the
immediate-open path runs openPosition after removing the entry, matching the
clearSchedule call, and the armed path installs the new entry, whose timer
fires at the funding time minus the pre-funding offset. -/
def scheduleTrade (ticker : BybitFundingTicker) (now : ℤ) (o : OpenOracle)
    (st : EngineState) : EngineState :=
  match scheduleTradeDecision ticker (mapLookup st.schedules ticker.symbol) now with
  | ScheduleDecision.rejected => st
  | ScheduleDecision.alreadyScheduled => st
  | ScheduleDecision.declinedTooEarly =>
    { st with schedules := mapDelete st.schedules ticker.symbol }
  | ScheduleDecision.immediateOpen fundingTime =>
    openPosition ticker.symbol fundingTime o
      { st with schedules := mapDelete st.schedules ticker.symbol }
  | ScheduleDecision.armed fundingTime =>
    { st with schedules := mapSet st.schedules ticker.symbol { fundingTime := fundingTime } }

-- ### Closing a position (index.ts lines 279 to 333)

/-- Oracle inputs consumed by one close attempt: the position-size query, and
the instrument-filter fetch, venue round trip and generated link id of the
close order. -/
structure CloseAttemptOracle where
  size : Except Unit ℚ
  filters : Except Unit InstrumentFilters
  network : Except Unit Unit
  linkId : String

/-- Opposite side used to close. -/
def closeSideOf : TradeSide → TradeSide
  | TradeSide.Buy => TradeSide.Sell
  | TradeSide.Sell => TradeSide.Buy

/-- Closing reference price: ask side for a buy to close, bid side for a sell
to close, falling back through mark and last, or the entry price when no
snapshot is cached; a missing or nonpositive result aborts the loop. -/
def closeReferencePrice (ticker : Option BybitFundingTicker)
    (closeSide : TradeSide) (entryPrice : ℚ) : Option ℚ :=
  priceGate
    (match ticker with
     | some t =>
       if closeSide = TradeSide.Buy then nullish t.askPrice (nullish t.markPrice t.lastPrice)
       else nullish t.bidPrice (nullish t.markPrice t.lastPrice)
     | none => some entryPrice)

/-- Observable outcome of the close-retry loop. -/
structure CloseLoopResult where
  ids : List String
  submissions : ℕ
  attemptsUsed : ℕ
deriving DecidableEq, Repr

/-- The attempt loop of closePosition: fuel counts the remaining attempts and
idx indexes the oracle of the current attempt.  A failed size read consumes
the attempt without submitting; a nonpositive size or a missing reference
price leaves the loop; otherwise a reduce-only close order for the full
remaining size is attempted and its link id recorded when truthy. -/
def closeLoopAux (sym : String) (closeSide : TradeSide) (entryPrice : ℚ)
    (ticker : Option BybitFundingTicker) (oracles : ℕ → CloseAttemptOracle) :
    ℕ → ℕ → CloseLoopResult
  | 0, _ => { ids := [], submissions := 0, attemptsUsed := 0 }
  | fuel + 1, idx =>
    let o := oracles idx
    match o.size with
    | Except.error _ =>
      let r := closeLoopAux sym closeSide entryPrice ticker oracles fuel (idx + 1)
      { r with attemptsUsed := r.attemptsUsed + 1 }
    | Except.ok currentSize =>
      if currentSize ≤ 0 then { ids := [], submissions := 0, attemptsUsed := 1 }
      else
        match closeReferencePrice ticker closeSide entryPrice with
        | none => { ids := [], submissions := 0, attemptsUsed := 1 }
        | some referencePrice =>
          let attempt := placeLimitOrder
            { symbol := sym, side := closeSide, price := referencePrice,
              qty := currentSize, reduceOnly := true } o.filters o.network o.linkId
          let r := closeLoopAux sym closeSide entryPrice ticker oracles fuel (idx + 1)
          match attempt with
          | Except.ok result =>
            { ids := (if result.orderLinkId != "" then [result.orderLinkId] else []) ++ r.ids,
              submissions := r.submissions + 1, attemptsUsed := r.attemptsUsed + 1 }
          | Except.error e =>
            { ids := r.ids,
              submissions := r.submissions + (if orderDispatched (Except.error e) then 1 else 0),
              attemptsUsed := r.attemptsUsed + 1 }

/-- The close-retry loop with the configured attempt cap. -/
def closeLoop (sym : String) (closeSide : TradeSide) (entryPrice : ℚ)
    (ticker : Option BybitFundingTicker) (oracles : ℕ → CloseAttemptOracle) :
    CloseLoopResult :=
  closeLoopAux sym closeSide entryPrice ticker oracles MAX_CLOSE_ATTEMPTS 0

-- ### Finalizing a position (index.ts lines 223 to 277)

/-- Oracle inputs consumed by finalizePosition: the per-order execution
queries, the funding history query, the wallet balance read (an error models
the caught balance failure, after which no breach check runs), a flag for an
error escaping the try block, and the current time. -/
structure FinalizeOracle where
  executions : String → Except Unit (List ExecutionRecord)
  fundingHistory : Except Unit (List FundingHistoryEntry)
  balance : Except Unit ℚ
  internalError : Bool
  now : ℤ

/-- Net effect of shutdown (index.ts lines 498 to 519) on the engine state:
the poll and monitor timers stop, every schedule entry and its timer is
cleared, and each open position is driven through the close procedure, whose
finalizer removes the record; the nested breach checks cannot fire again
because trading is already disabled when shutdown is invoked on breach, and
with it disabled no new position can be opened during the closes. -/
def shutdownEffect (st : EngineState) : EngineState :=
  { st with
    schedules := [], activePositions := [],
    shutdownInvocations := st.shutdownInvocations + 1 }

/-- Model of finalizePosition as one transition.  The execution summaries,
funding fee and log line have no effect on the engine state in the source
version; the balance read feeds the drawdown-breach check, which disables
trading and invokes shutdown.  An internal error models an exception escaping
the try block, skipping its effects; the finally clause removes the position
record in every case. -/
def finalizePosition (sym : String) (o : FinalizeOracle) (st : EngineState) :
    EngineState :=
  match mapLookup st.activePositions sym with
  | none => st
  | some _ =>
    let afterTry : EngineState :=
      if o.internalError then st
      else
        match o.balance, st.startingEquity with
        | Except.ok currentEquity, some starting =>
          if st.drawdownLimitUsd ≤ starting - currentEquity ∧ st.tradingEnabled = true then
            shutdownEffect
              { st with tradingEnabled := false, breakerTrips := st.breakerTrips + 1 }
          else st
        | _, _ => st
    { afterTry with activePositions := mapDelete afterTry.activePositions sym }

/-- Oracle inputs consumed by one closePosition run. -/
structure CloseOracle where
  attempts : ℕ → CloseAttemptOracle
  fin : FinalizeOracle

/-- Model of closePosition as one transition: run the attempt loop, append
the collected close order ids to the position record, account the dispatched
submissions, then finalize unconditionally. -/
def closePosition (sym : String) (o : CloseOracle) (st : EngineState) :
    EngineState :=
  match mapLookup st.activePositions sym with
  | none => st
  | some position =>
    let r := closeLoop sym (closeSideOf position.side) position.entryPrice
      (mapLookup st.latestTickers sym) o.attempts
    let st1 : EngineState :=
      { st with
        activePositions := mapSet st.activePositions sym
          { position with closeOrderLinkIds := position.closeOrderLinkIds ++ r.ids },
        ordersSubmitted := st.ordersSubmitted + r.submissions }
    finalizePosition sym o.fin st1

-- ### Selection (index.ts lines 463 to 496)

/-- The truthiness filter pollTickers applies to nextFundingTime: the field
must be present and nonempty, parseability is not required. -/
def truthyStr : Option String → Bool
  | none => false
  | some s => s != ""

/-- Comparison of parsed funding times as the sort comparator sees them: an
unparseable time becomes Infinity, and the NaN produced by comparing two
Infinity values is treated as equal order by the sort. -/
def timeKeyLE : Option ℤ → Option ℤ → Bool
  | _, none => true
  | none, some _ => false
  | some a, some b => decide (a ≤ b)

/-- The sort order of the selection comparator: descending absolute funding
rate, ties broken by ascending parsed funding time. -/
def tickerLE (a b : BybitFundingTicker) : Bool :=
  if a.fundingRateAbs = b.fundingRateAbs then
    timeKeyLE (parseFundingTimestamp a.nextFundingTime) (parseFundingTimestamp b.nextFundingTime)
  else decide (b.fundingRateAbs < a.fundingRateAbs)

/-- The per-cycle selection computed by pollTickers from the fetched
snapshots: filter on a truthy nextFundingTime, stable-sort by the comparator,
keep the first ten. -/
def pollSelect (tickers : List BybitFundingTicker) : List BybitFundingTicker :=
  ((tickers.filter (fun t => truthyStr t.nextFundingTime)).mergeSort tickerLE).take 10

-- ### The step relation

/-- One atomic transition of the engine: a scheduleTrade call from a poll
cycle on a fetched ticker, the firing of an armed open timer (which first
removes its schedule entry, matching the timer callback), the firing of a
close timer, the unscheduling of a symbol that left the selection, and a
shutdown from an external termination signal. -/
inductive Step : EngineState → EngineState → Prop
  | schedule (ticker : BybitFundingTicker) (now : ℤ) (o : OpenOracle)
      (st : EngineState) :
      Step st (scheduleTrade ticker now o st)
  | openTimerFire (sym : String) (entry : ScheduledTrade) (o : OpenOracle)
      (st : EngineState) :
      mapLookup st.schedules sym = some entry →
      Step st (openPosition sym entry.fundingTime o
        { st with schedules := mapDelete st.schedules sym })
  | closeTimerFire (sym : String) (o : CloseOracle) (st : EngineState) :
      Step st (closePosition sym o st)
  | unschedule (sym : String) (st : EngineState) :
      Step st { st with schedules := mapDelete st.schedules sym }
  | shutdownSignal (st : EngineState) :
      Step st (shutdownEffect st)

/-- Reachability along the step relation. -/
inductive Reachable (init : EngineState) : EngineState → Prop
  | refl : Reachable init init
  | tail {st1 st2 : EngineState} :
      Reachable init st1 → Step st1 st2 → Reachable init st2

/-- A symbol holds both a ScheduledEntry and an OpenPosition. -/
def ScheduledAndOpen (st : EngineState) (sym : String) : Prop :=
  (mapLookup st.schedules sym).isSome = true ∧
  (mapLookup st.activePositions sym).isSome = true

/-- Exclusivity between the schedules map and the active-positions map. -/
def Exclusive (st : EngineState) : Prop :=
  ∀ sym : String, ¬ ScheduledAndOpen st sym

-- ### Field-preservation lemmas for the operations

theorem openPosition_schedules (sym : String) (ft : ℤ) (o : OpenOracle)
    (st : EngineState) : (openPosition sym ft o st).schedules = st.schedules := by
  simp only [openPosition]
  repeat' split
  all_goals rfl

theorem openPosition_flags (sym : String) (ft : ℤ) (o : OpenOracle)
    (st : EngineState) :
    (openPosition sym ft o st).tradingEnabled = st.tradingEnabled ∧
    (openPosition sym ft o st).breakerTrips = st.breakerTrips ∧
    (openPosition sym ft o st).startingEquity = st.startingEquity ∧
    (openPosition sym ft o st).drawdownLimitUsd = st.drawdownLimitUsd ∧
    (openPosition sym ft o st).shutdownInvocations = st.shutdownInvocations := by
  simp only [openPosition]
  repeat' split
  all_goals exact ⟨rfl, rfl, rfl, rfl, rfl⟩

theorem openPosition_active_other (sym k : String) (hk : ¬ k = sym) (ft : ℤ)
    (o : OpenOracle) (st : EngineState) :
    mapLookup (openPosition sym ft o st).activePositions k =
      mapLookup st.activePositions k := by
  simp only [openPosition]
  repeat' split
  all_goals simp [mapLookup_set, hk]

theorem finalizePosition_active_self (sym : String) (o : FinalizeOracle)
    (st : EngineState) :
    mapLookup (finalizePosition sym o st).activePositions sym = none := by
  simp only [finalizePosition]
  split
  · assumption
  · repeat' split
    all_goals simp [shutdownEffect, mapDelete, mapLookup, mapLookup_delete_self]

theorem finalizePosition_active_mono (sym k : String) (o : FinalizeOracle)
    (st : EngineState)
    (h : (mapLookup (finalizePosition sym o st).activePositions k).isSome = true) :
    (mapLookup st.activePositions k).isSome = true := by
  simp only [finalizePosition] at h
  revert h
  repeat' split
  all_goals intro h
  · exact h
  all_goals
    first
    | exact isSome_of_delete h
    | simp [shutdownEffect, mapDelete, mapLookup] at h

theorem finalizePosition_schedules (sym : String) (o : FinalizeOracle)
    (st : EngineState) :
    (finalizePosition sym o st).schedules = st.schedules ∨
    (finalizePosition sym o st).schedules = [] := by
  simp only [finalizePosition]
  repeat' split
  all_goals first | exact Or.inl rfl | exact Or.inr rfl

theorem finalizePosition_flags (sym : String) (o : FinalizeOracle)
    (st : EngineState) :
    ((finalizePosition sym o st).tradingEnabled = st.tradingEnabled ∧
     (finalizePosition sym o st).breakerTrips = st.breakerTrips) ∨
    (st.tradingEnabled = true ∧
     (finalizePosition sym o st).tradingEnabled = false ∧
     (finalizePosition sym o st).breakerTrips = st.breakerTrips + 1) := by
  simp only [finalizePosition]
  repeat' split
  all_goals
    first
    | exact Or.inl ⟨rfl, rfl⟩
    | (rename_i hcond; exact Or.inr ⟨hcond.2, rfl, rfl⟩)

theorem finalizePosition_orders (sym : String) (o : FinalizeOracle)
    (st : EngineState) :
    (finalizePosition sym o st).ordersSubmitted = st.ordersSubmitted := by
  simp only [finalizePosition]
  repeat' split
  all_goals rfl

theorem closePosition_flags (sym : String) (o : CloseOracle) (st : EngineState) :
    ((closePosition sym o st).tradingEnabled = st.tradingEnabled ∧
     (closePosition sym o st).breakerTrips = st.breakerTrips) ∨
    (st.tradingEnabled = true ∧
     (closePosition sym o st).tradingEnabled = false ∧
     (closePosition sym o st).breakerTrips = st.breakerTrips + 1) := by
  simp only [closePosition]
  split
  · exact Or.inl ⟨rfl, rfl⟩
  · exact finalizePosition_flags _ _ _

theorem scheduleTrade_flags (ticker : BybitFundingTicker) (now : ℤ)
    (o : OpenOracle) (st : EngineState) :
    (scheduleTrade ticker now o st).tradingEnabled = st.tradingEnabled ∧
    (scheduleTrade ticker now o st).breakerTrips = st.breakerTrips := by
  simp only [scheduleTrade]
  split
  · exact ⟨rfl, rfl⟩
  · exact ⟨rfl, rfl⟩
  · exact ⟨rfl, rfl⟩
  · exact ⟨(openPosition_flags _ _ _ _).1, (openPosition_flags _ _ _ _).2.1⟩
  · exact ⟨rfl, rfl⟩

-- ### One-way breaker lemmas over the step relation

theorem step_flags {st st2 : EngineState} (h : Step st st2) :
    (st2.tradingEnabled = st.tradingEnabled ∧ st2.breakerTrips = st.breakerTrips) ∨
    (st.tradingEnabled = true ∧ st2.tradingEnabled = false ∧
     st2.breakerTrips = st.breakerTrips + 1) := by
  cases h with
  | schedule ticker now o st => exact Or.inl (scheduleTrade_flags ticker now o st)
  | openTimerFire sym entry o st hlk =>
    exact Or.inl ⟨(openPosition_flags _ _ _ _).1, (openPosition_flags _ _ _ _).2.1⟩
  | closeTimerFire sym o st => exact closePosition_flags sym o st
  | unschedule sym st => exact Or.inl ⟨rfl, rfl⟩
  | shutdownSignal st => exact Or.inl ⟨rfl, rfl⟩

theorem reachable_flag_mono {init st : EngineState} (h : Reachable init st) :
    init.tradingEnabled = false → st.tradingEnabled = false := by
  induction h with
  | refl => exact id
  | tail hr hs ih =>
    intro h0
    rcases step_flags hs with ⟨h1, _⟩ | ⟨h1, h2, _⟩
    · rw [h1]
      exact ih h0
    · exact h2

theorem reachable_trip_bound {e : ℚ} {st : EngineState}
    (h : Reachable (initState e) st) :
    st.breakerTrips ≤ if st.tradingEnabled then 0 else 1 := by
  induction h with
  | refl => simp [initState]
  | tail hr hs ih =>
    rcases step_flags hs with ⟨h1, h2⟩ | ⟨h1, h2, h3⟩
    · rw [h1, h2]
      exact ih
    · simp [h1] at ih
      simp [h2, h3]
      omega

-- ### Exclusivity lemmas

theorem exclusive_of_mono {st st2 : EngineState}
    (hs : ∀ k, (mapLookup st2.schedules k).isSome = true →
      (mapLookup st.schedules k).isSome = true)
    (ha : ∀ k, (mapLookup st2.activePositions k).isSome = true →
      (mapLookup st.activePositions k).isSome = true)
    (h : Exclusive st) : Exclusive st2 :=
  fun sym hc => h sym ⟨hs sym hc.1, ha sym hc.2⟩

theorem exclusive_delete (st : EngineState) (sym : String) (h : Exclusive st) :
    Exclusive { st with schedules := mapDelete st.schedules sym } := by
  intro k hc
  exact h k ⟨isSome_of_delete hc.1, hc.2⟩

theorem exclusive_shutdown (st : EngineState) (_h : Exclusive st) :
    Exclusive (shutdownEffect st) := by
  intro sym hc
  have h1 := hc.1
  simp [shutdownEffect, mapLookup] at h1

theorem exclusive_openPosition (sym : String) (ft : ℤ) (o : OpenOracle)
    (st : EngineState) (hnone : mapLookup st.schedules sym = none)
    (h : Exclusive st) : Exclusive (openPosition sym ft o st) := by
  intro k hc
  have hsch := openPosition_schedules sym ft o st
  by_cases hk : k = sym
  · subst hk
    have h1 := hc.1
    rw [hsch, hnone] at h1
    simp at h1
  · exact h k ⟨hsch ▸ hc.1, (openPosition_active_other sym k hk ft o st) ▸ hc.2⟩

theorem exclusive_finalizePosition (sym : String) (o : FinalizeOracle)
    (st : EngineState) (h : Exclusive st) :
    Exclusive (finalizePosition sym o st) := by
  intro k hc
  rcases finalizePosition_schedules sym o st with hsch | hsch
  · exact h k ⟨hsch ▸ hc.1, finalizePosition_active_mono sym k o st hc.2⟩
  · have h1 := hc.1
    rw [hsch] at h1
    simp [mapLookup] at h1

theorem exclusive_closePosition (sym : String) (o : CloseOracle)
    (st : EngineState) (h : Exclusive st) : Exclusive (closePosition sym o st) := by
  simp only [closePosition]
  split
  · exact h
  · rename_i position hpos
    apply exclusive_finalizePosition
    intro k hc
    apply h k
    refine ⟨hc.1, ?_⟩
    have h2 := hc.2
    simp only [mapLookup_set] at h2
    by_cases hk : k = sym
    · subst hk
      simp [hpos]
    · simpa [hk] using h2

theorem exclusive_scheduleTrade (ticker : BybitFundingTicker) (now : ℤ)
    (o : OpenOracle) (st : EngineState)
    (hnopos : mapLookup st.activePositions ticker.symbol = none)
    (h : Exclusive st) : Exclusive (scheduleTrade ticker now o st) := by
  simp only [scheduleTrade]
  split
  · exact h
  · exact h
  · exact exclusive_delete st ticker.symbol h
  · apply exclusive_openPosition
    · exact mapLookup_delete_self st.schedules ticker.symbol
    · exact exclusive_delete st ticker.symbol h
  · intro k hc
    have h1 := hc.1
    have h2 := hc.2
    simp only [mapLookup_set] at h1
    by_cases hk : k = ticker.symbol
    · subst hk
      rw [hnopos] at h2
      simp at h2
    · rw [if_neg hk] at h1
      exact h k ⟨h1, h2⟩

-- ### Characterization of the scheduleTrade decision

theorem scheduleTradeDecision_armed_iff (ticker : BybitFundingTicker)
    (existing : Option ScheduledTrade) (now t : ℤ)
    (hparse : parseFundingTimestamp ticker.nextFundingTime = some t) :
    scheduleTradeDecision ticker existing now = ScheduleDecision.armed t ↔
      (¬ t = 0 ∧ now < t ∧ FUNDING_THRESHOLD ≤ |ticker.fundingRate| ∧
       ¬ existing = some { fundingTime := t } ∧
       0 < t - PRE_FUNDING_MS - now ∧ t - PRE_FUNDING_MS - now ≤ PRE_FUNDING_MS) := by
  simp only [scheduleTradeDecision, hparse]
  split_ifs with h1 h2 h3 h4 h5 h6
  · exact iff_of_false (by intro h; cases h) (fun hcon => hcon.1 h1)
  · exact iff_of_false (by intro h; cases h)
      (fun hcon => by have := hcon.2.1; omega)
  · exact iff_of_false (by intro h; cases h)
      (fun hcon => absurd hcon.2.2.1 (not_le.mpr h3))
  · exact iff_of_false (by intro h; cases h) (fun hcon => hcon.2.2.2.1 h4)
  · exact iff_of_false (by intro h; cases h)
      (fun hcon => by have := hcon.2.2.2.2.2; omega)
  · exact iff_of_false (by intro h; cases h)
      (fun hcon => by have := hcon.2.2.2.2.1; omega)
  · exact iff_of_true rfl
      ⟨h1, by omega, not_lt.mp h3, h4, by omega, by omega⟩

theorem scheduleTradeDecision_immediate_iff (ticker : BybitFundingTicker)
    (existing : Option ScheduledTrade) (now t : ℤ)
    (hparse : parseFundingTimestamp ticker.nextFundingTime = some t) :
    scheduleTradeDecision ticker existing now = ScheduleDecision.immediateOpen t ↔
      (¬ t = 0 ∧ now < t ∧ FUNDING_THRESHOLD ≤ |ticker.fundingRate| ∧
       ¬ existing = some { fundingTime := t } ∧ t - PRE_FUNDING_MS - now ≤ 0) := by
  simp only [scheduleTradeDecision, hparse]
  split_ifs with h1 h2 h3 h4 h5 h6
  · exact iff_of_false (by intro h; cases h) (fun hcon => hcon.1 h1)
  · exact iff_of_false (by intro h; cases h)
      (fun hcon => by have := hcon.2.1; omega)
  · exact iff_of_false (by intro h; cases h)
      (fun hcon => absurd hcon.2.2.1 (not_le.mpr h3))
  · exact iff_of_false (by intro h; cases h) (fun hcon => hcon.2.2.2.1 h4)
  · exact iff_of_false (by intro h; cases h)
      (fun hcon => by have := hcon.2.2.2.2; omega)
  · exact iff_of_true rfl ⟨h1, by omega, not_lt.mp h3, h4, h6⟩
  · exact iff_of_false (by intro h; cases h)
      (fun hcon => by have := hcon.2.2.2.2; omega)

theorem scheduleTradeDecision_declined_iff (ticker : BybitFundingTicker)
    (existing : Option ScheduledTrade) (now t : ℤ)
    (hparse : parseFundingTimestamp ticker.nextFundingTime = some t) :
    scheduleTradeDecision ticker existing now = ScheduleDecision.declinedTooEarly ↔
      (¬ t = 0 ∧ now < t ∧ FUNDING_THRESHOLD ≤ |ticker.fundingRate| ∧
       ¬ existing = some { fundingTime := t } ∧
       PRE_FUNDING_MS < t - PRE_FUNDING_MS - now) := by
  simp only [scheduleTradeDecision, hparse]
  split_ifs with h1 h2 h3 h4 h5 h6
  · exact iff_of_false (by intro h; cases h) (fun hcon => hcon.1 h1)
  · exact iff_of_false (by intro h; cases h)
      (fun hcon => by have := hcon.2.1; omega)
  · exact iff_of_false (by intro h; cases h)
      (fun hcon => absurd hcon.2.2.1 (not_le.mpr h3))
  · exact iff_of_false (by intro h; cases h) (fun hcon => hcon.2.2.2.1 h4)
  · exact iff_of_true rfl ⟨h1, by omega, not_lt.mp h3, h4, h5⟩
  · exact iff_of_false (by intro h; cases h)
      (fun hcon => by have := hcon.2.2.2.2; omega)
  · exact iff_of_false (by intro h; cases h)
      (fun hcon => by have := hcon.2.2.2.2; omega)

-- ### Concrete instrument filters and sizing evaluations

/-- A simple venue filter set: minimum one contract, whole-contract steps,
whole-dollar ticks. -/
def filtersOne : InstrumentFilters := { minOrderQty := 1, qtyStep := 1, priceStep := 1 }

theorem ceil_minUnits_one : (⌈(1 : ℚ) / 1 - 1 / 1000000000⌉ : ℤ) = 1 := by
  rw [Int.ceil_eq_iff]
  constructor <;> norm_num

theorem conformedQty_notional : conformedQty (TRADE_NOTIONAL_USD / 100) filtersOne = 5 := by
  have h1 : (⌊(TRADE_NOTIONAL_USD / 100) / (1 : ℚ)⌋ : ℤ) = 5 := by
    norm_num [TRADE_NOTIONAL_USD]
  simp only [conformedQty, filtersOne]
  rw [h1, ceil_minUnits_one]
  norm_num

theorem normaliseQty_notional :
    normaliseQty (TRADE_NOTIONAL_USD / 100) filtersOne = Except.ok 5 := by
  rw [normaliseQty, conformedQty_notional]
  norm_num [filtersOne]

theorem normalisePrice_hundred : normalisePrice 100 filtersOne.priceStep = 100 := by
  have h1 : (⌊(100 : ℚ) / 1 + 1 / 2⌋ : ℤ) = 100 := by norm_num
  simp only [normalisePrice, filtersOne]
  rw [h1]
  norm_num

-- ### A reachable state holding both a schedule entry and an open position

/-- Snapshot of a qualifying symbol whose funding event is 1000 ms after
epoch: at time 0 the fire window has already been reached. -/
def tickerOpenC1 : BybitFundingTicker :=
  { symbol := "ABC", fundingRate := 1/100, fundingRateAbs := 1/100,
    markPrice := some 100, nextFundingTime := some "1000" }

/-- The same symbol two seconds later, now advertising a funding event at
8000 ms, which lies inside the arming window while the position opened for
the first event is still active. -/
def tickerArmC1 : BybitFundingTicker :=
  { symbol := "ABC", fundingRate := 1/100, fundingRateAbs := 1/100,
    markPrice := some 100, nextFundingTime := some "8000" }

/-- Gateway oracle for the successful entry. -/
def oracleOpenC1 : OpenOracle :=
  { refreshed := some (some tickerOpenC1), filters := Except.ok filtersOne,
    network := Except.ok (), linkId := "e1", now := 0 }

def c1StateOne : EngineState := scheduleTrade tickerOpenC1 0 oracleOpenC1 (initState 1000)

def c1StateTwo : EngineState := scheduleTrade tickerArmC1 2000 oracleOpenC1 c1StateOne

/-- The position record created by the immediate open. -/
def c1Position : ActivePosition :=
  { symbol := "ABC", side := TradeSide.Sell, qty := 5, entryPrice := 100,
    fundingTime := 1000, openedAt := 0, entryOrderLinkId := "e1",
    closeOrderLinkIds := [], closeTimer := true }

/-- The engine state after the immediate open of ABC. -/
def c1PosState : EngineState :=
  { schedules := [], activePositions := [("ABC", c1Position)],
    latestTickers := [("ABC", tickerOpenC1)], openingSymbols := [],
    tradingEnabled := true, startingEquity := some 1000,
    drawdownLimitUsd := 1000 * MAX_DRAWDOWN_PCT, ordersSubmitted := 1,
    breakerTrips := 0, shutdownInvocations := 0 }

theorem tickerC1_rate_ge : FUNDING_THRESHOLD ≤ |(1 : ℚ)/100| := by
  rw [abs_of_pos (by norm_num)]
  norm_num [FUNDING_THRESHOLD]

theorem openRef_tickerC1 : openReferencePrice tickerOpenC1 = some 100 := by
  simp only [openReferencePrice, tickerOpenC1, nullish, priceGate]
  norm_num

theorem rate_not_lt_C1 : ¬ (|tickerOpenC1.fundingRate| < FUNDING_THRESHOLD) :=
  not_lt.mpr tickerC1_rate_ge

theorem placeOpen_c1 :
    placeLimitOrder
      { symbol := "ABC", side := TradeSide.Sell,
        price := 100, qty := TRADE_NOTIONAL_USD / 100, reduceOnly := false }
      (Except.ok filtersOne) (Except.ok ()) "e1" =
    Except.ok { orderLinkId := "e1", qty := 5, price := 100 } := by
  unfold placeLimitOrder
  dsimp only
  rw [normaliseQty_notional]
  dsimp only
  rw [normalisePrice_hundred]

theorem openSide_c1 : openSide tickerOpenC1.fundingRate = TradeSide.Sell := by
  simp only [openSide, tickerOpenC1]
  rw [if_pos (by norm_num)]

theorem openPosition_c1 :
    openPosition "ABC" 1000 oracleOpenC1 (initState 1000) = c1PosState := by
  have hg1 : ¬ ((initState 1000).tradingEnabled = false) := by simp [initState]
  have hg2 : ¬ (((initState 1000).openingSymbols.contains "ABC" ||
      (mapLookup (initState 1000).activePositions "ABC").isSome) = true) := by
    simp [initState, mapLookup]
  simp only [openPosition]
  rw [if_neg hg1, if_neg hg2]
  simp only [oracleOpenC1, openResolvedTicker]
  rw [if_neg rate_not_lt_C1]
  rw [openRef_tickerC1]
  dsimp only
  rw [openSide_c1]
  rw [placeOpen_c1]
  dsimp only
  simp only [initState, c1PosState, c1Position, mapSet, mapDelete]

theorem c1StateOne_eq : c1StateOne = c1PosState := by
  have hparse : parseFundingTimestamp tickerOpenC1.nextFundingTime = some 1000 := by
    simp [parseFundingTimestamp, digitsToNat, tickerOpenC1]
  have hdec : scheduleTradeDecision tickerOpenC1
      (mapLookup (initState 1000).schedules tickerOpenC1.symbol) 0 =
      ScheduleDecision.immediateOpen 1000 := by
    rw [scheduleTradeDecision_immediate_iff tickerOpenC1 _ 0 1000 hparse]
    refine ⟨by norm_num, by norm_num, tickerC1_rate_ge, ?_, by norm_num [PRE_FUNDING_MS]⟩
    simp [initState, mapLookup]
  rw [c1StateOne]
  simp only [scheduleTrade, hdec]
  exact openPosition_c1

theorem c1StateTwo_eq :
    c1StateTwo = { c1PosState with schedules := [("ABC", { fundingTime := 8000 })] } := by
  have hparse : parseFundingTimestamp tickerArmC1.nextFundingTime = some 8000 := by
    simp [parseFundingTimestamp, digitsToNat, tickerArmC1]
  have hrate : FUNDING_THRESHOLD ≤ |tickerArmC1.fundingRate| := by
    rw [show tickerArmC1.fundingRate = 1/100 from rfl]
    exact tickerC1_rate_ge
  have hdec : scheduleTradeDecision tickerArmC1
      (mapLookup c1PosState.schedules tickerArmC1.symbol) 2000 =
      ScheduleDecision.armed 8000 := by
    rw [scheduleTradeDecision_armed_iff tickerArmC1 _ 2000 8000 hparse]
    refine ⟨by norm_num, by norm_num, hrate, ?_,
      by norm_num [PRE_FUNDING_MS], by norm_num [PRE_FUNDING_MS]⟩
    simp [c1PosState, mapLookup]
  rw [c1StateTwo, c1StateOne_eq]
  simp only [scheduleTrade, hdec]
  simp [mapSet, mapDelete, c1PosState, tickerArmC1]

/-- C1 counterexample: from a freshly started engine with equity 1000, one
poll cycle at time 0 sees ABC with funding rate 0.01 and a funding event at
1000 ms, whose fire window has passed, so scheduleTrade opens the position
immediately; a later poll cycle at time 2000 sees the next funding event of
ABC at 8000 ms, inside the arming window, and scheduleTrade installs a timer
without consulting the active-positions map.  The resulting reachable state
holds both a ScheduledEntry and an OpenPosition for ABC, refuting the claim
that every operation preserves the exclusivity. -/
theorem scheduling_position_exclusivity_counterexample :
    Reachable (initState 1000) c1StateTwo ∧ ScheduledAndOpen c1StateTwo "ABC" ∧
    ¬ Exclusive c1StateTwo := by
  have hro : ScheduledAndOpen c1StateTwo "ABC" := by
    rw [c1StateTwo_eq]
    constructor
    · simp [mapLookup]
    · simp [mapLookup, c1PosState]
  refine ⟨?_, hro, fun h => h "ABC" hro⟩
  have h1 : Step (initState 1000) c1StateOne :=
    Step.schedule tickerOpenC1 0 oracleOpenC1 (initState 1000)
  have h2 : Step c1StateOne c1StateTwo :=
    Step.schedule tickerArmC1 2000 oracleOpenC1 c1StateOne
  exact Reachable.tail (Reachable.tail Reachable.refl h1) h2

/-- C1 (amended): exclusivity between the schedules map and the
active-positions map is preserved by the open-timer fire path (which removes
the schedule entry before opening), by closePosition, finalizePosition,
unscheduling and shutdown; and scheduleTrade preserves it whenever the symbol
holds no open position.  The unamended claim fails because the arming step of
scheduleTrade consults only the schedules map: when a new qualifying funding
time inside the arming window arrives for a symbol whose position is still
open, the symbol becomes both scheduled and open. -/
theorem scheduling_position_exclusivity : ∀ st : EngineState, Exclusive st →
    (∀ sym entry o, mapLookup st.schedules sym = some entry →
      Exclusive (openPosition sym entry.fundingTime o
        { st with schedules := mapDelete st.schedules sym })) ∧
    (∀ sym o, Exclusive (closePosition sym o st)) ∧
    (∀ sym o, Exclusive (finalizePosition sym o st)) ∧
    (∀ sym, Exclusive { st with schedules := mapDelete st.schedules sym }) ∧
    Exclusive (shutdownEffect st) ∧
    (∀ ticker now o, mapLookup st.activePositions ticker.symbol = none →
      Exclusive (scheduleTrade ticker now o st)) := by
  intro st h
  refine ⟨?_, ?_, ?_, ?_, ?_, ?_⟩
  · intro sym entry o _
    exact exclusive_openPosition sym entry.fundingTime o _
      (mapLookup_delete_self st.schedules sym) (exclusive_delete st sym h)
  · intro sym o
    exact exclusive_closePosition sym o st h
  · intro sym o
    exact exclusive_finalizePosition sym o st h
  · intro sym
    exact exclusive_delete st sym h
  · exact exclusive_shutdown st h
  · intro ticker now o hnone
    exact exclusive_scheduleTrade ticker now o st hnone h

theorem scheduling_position_exclusivity_witness :
    Exclusive (initState 1000) ∧ Exclusive (shutdownEffect (initState 1000)) := by
  have h : Exclusive (initState 1000) := by
    intro sym hc
    have h1 := hc.1
    simp [initState, mapLookup] at h1
  exact ⟨h, (scheduling_position_exclusivity (initState 1000) h).2.2.2.2.1⟩

-- ### C2: the one-way trading latch

/-- Position record used by concrete finalize and close scenarios. -/
def posS : ActivePosition :=
  { symbol := "S", side := TradeSide.Buy, qty := 3, entryPrice := 100,
    fundingTime := 1000, openedAt := 0, entryOrderLinkId := "e1",
    closeOrderLinkIds := [], closeTimer := true }

/-- Finalize oracle observing equity 965 after a starting equity of 1000. -/
def c2FinOracle : FinalizeOracle :=
  { executions := fun _ => Except.error (), fundingHistory := Except.error (),
    balance := Except.ok 965, internalError := false, now := 2000 }

/-- Engine state holding one open position, as started with equity 1000. -/
def c2State : EngineState :=
  { initState 1000 with activePositions := [("S", posS)] }

/-- C2: the trading-enabled flag starts true with the drawdown limit set to
the configured fraction of starting equity; no step of the system ever turns
the flag back on; along every run from a start state the breach branch of
finalizePosition executes at most once, so the flag flips at most once and
the breach shutdown is invoked at most once even when several finalize runs
observe a breach; and a finalize run that observes drawdown at or above the
limit while trading is enabled disables trading and invokes shutdown. -/
theorem trading_enabled_one_way_latch :
    (∀ e : ℚ, (initState e).tradingEnabled = true ∧ (initState e).breakerTrips = 0 ∧
      (initState e).drawdownLimitUsd = e * MAX_DRAWDOWN_PCT) ∧
    (∀ st st2 : EngineState, Step st st2 → st.tradingEnabled = false →
      st2.tradingEnabled = false) ∧
    (∀ (e : ℚ) (st : EngineState), Reachable (initState e) st → st.breakerTrips ≤ 1) ∧
    (∀ st sym o (pos : ActivePosition) (current starting : ℚ),
      mapLookup st.activePositions sym = some pos →
      o.internalError = false →
      o.balance = Except.ok current →
      st.startingEquity = some starting →
      st.drawdownLimitUsd ≤ starting - current →
      st.tradingEnabled = true →
      (finalizePosition sym o st).tradingEnabled = false ∧
      (finalizePosition sym o st).breakerTrips = st.breakerTrips + 1 ∧
      (finalizePosition sym o st).shutdownInvocations = st.shutdownInvocations + 1) := by
  refine ⟨fun e => ⟨rfl, rfl, rfl⟩, ?_, ?_, ?_⟩
  · intro st st2 hstep h0
    rcases step_flags hstep with ⟨h1, _⟩ | ⟨h1, h2, _⟩
    · rw [h1]
      exact h0
    · exact h2
  · intro e st hreach
    have hb := reachable_trip_bound hreach
    rcases Bool.eq_false_or_eq_true st.tradingEnabled with hflag | hflag <;>
      simp [hflag] at hb <;> omega
  · intro st sym o pos current starting h1 h2 h3 h4 h5 h6
    have hne : ¬ (o.internalError = true) := by simp [h2]
    simp only [finalizePosition, h1, h3, h4]
    rw [if_neg hne]
    rw [if_pos ⟨h5, h6⟩]
    simp [shutdownEffect]

theorem trading_enabled_one_way_latch_witness :
    (initState 1000).breakerTrips ≤ 1 ∧
    (finalizePosition "S" c2FinOracle c2State).tradingEnabled = false ∧
    (finalizePosition "S" c2FinOracle c2State).breakerTrips = c2State.breakerTrips + 1 ∧
    (finalizePosition "S" c2FinOracle c2State).shutdownInvocations =
      c2State.shutdownInvocations + 1 := by
  refine ⟨trading_enabled_one_way_latch.2.2.1 1000 (initState 1000) Reachable.refl, ?_⟩
  exact trading_enabled_one_way_latch.2.2.2 c2State "S" c2FinOracle posS 965 1000
    (by simp [c2State, mapLookup]) rfl rfl rfl
    (by simp only [c2State, initState]; norm_num [MAX_DRAWDOWN_PCT]) rfl

-- ### C5: arming conditions of scheduleTrade

/-- A qualifying snapshot whose funding event at 8000 ms lies inside the
arming window at time 0. -/
def tickerC5 : BybitFundingTicker :=
  { symbol := "XRP", fundingRate := 1/100, fundingRateAbs := 1/100,
    markPrice := some 2, nextFundingTime := some "8000" }

theorem tickerC5_parse : parseFundingTimestamp tickerC5.nextFundingTime = some 8000 := by
  simp [parseFundingTimestamp, digitsToNat, tickerC5]

theorem tickerC5_rate : FUNDING_THRESHOLD ≤ |tickerC5.fundingRate| := by
  rw [show tickerC5.fundingRate = 1/100 from rfl]
  exact tickerC1_rate_ge

/-- C5 counterexample: XRP at time 0 satisfies every arming condition of the
claim (threshold rate, future event, fire time 3000 ms away, inside one
pre-offset window), yet because the symbol is already scheduled for the same
funding time, scheduleTrade returns early and installs nothing, so the
claimed arming happens if and only if the conditions hold is false as
stated. -/
theorem scheduleTrade_arming_counterexample :
    scheduleTradeDecision tickerC5 (some { fundingTime := 8000 }) 0 =
      ScheduleDecision.alreadyScheduled ∧
    parseFundingTimestamp tickerC5.nextFundingTime = some 8000 ∧
    (0 : ℤ) < 8000 ∧ FUNDING_THRESHOLD ≤ |tickerC5.fundingRate| ∧
    0 < 8000 - PRE_FUNDING_MS - 0 ∧ 8000 - PRE_FUNDING_MS - 0 ≤ PRE_FUNDING_MS := by
  refine ⟨?_, tickerC5_parse, by norm_num, tickerC5_rate,
    by norm_num [PRE_FUNDING_MS], by norm_num [PRE_FUNDING_MS]⟩
  simp only [scheduleTradeDecision, tickerC5_parse]
  rw [if_neg (by norm_num), if_neg (by norm_num), if_neg (not_lt.mpr tickerC5_rate)]
  simp

/-- C5 (amended): given a parsed funding time t, scheduleTrade arms a timer
for t if and only if the funding time is nonzero and in the future, the
absolute funding rate is at or above the threshold, the symbol is not
already scheduled for the same funding time, and the fire time t minus the
pre-offset is strictly future by at most one pre-offset window; under the
same first four conditions, a fire time that has already passed opens
immediately instead, and a wait of more than one window declines to arm.
The armed decision installs the schedule entry for t, and the immediate
decision runs openPosition after clearing the schedule entry.  The amendment
adds the not-already-scheduled-for-t condition to the claim. -/
theorem scheduleTrade_arming_conditions :
    ∀ (ticker : BybitFundingTicker) (existing : Option ScheduledTrade) (now t : ℤ),
      parseFundingTimestamp ticker.nextFundingTime = some t →
      ((scheduleTradeDecision ticker existing now = ScheduleDecision.armed t ↔
          (¬ t = 0 ∧ now < t ∧ FUNDING_THRESHOLD ≤ |ticker.fundingRate| ∧
           ¬ existing = some { fundingTime := t } ∧
           0 < t - PRE_FUNDING_MS - now ∧ t - PRE_FUNDING_MS - now ≤ PRE_FUNDING_MS)) ∧
       (scheduleTradeDecision ticker existing now = ScheduleDecision.immediateOpen t ↔
          (¬ t = 0 ∧ now < t ∧ FUNDING_THRESHOLD ≤ |ticker.fundingRate| ∧
           ¬ existing = some { fundingTime := t } ∧ t - PRE_FUNDING_MS - now ≤ 0)) ∧
       (scheduleTradeDecision ticker existing now = ScheduleDecision.declinedTooEarly ↔
          (¬ t = 0 ∧ now < t ∧ FUNDING_THRESHOLD ≤ |ticker.fundingRate| ∧
           ¬ existing = some { fundingTime := t } ∧
           PRE_FUNDING_MS < t - PRE_FUNDING_MS - now)) ∧
       (∀ (o : OpenOracle) (st : EngineState),
          mapLookup st.schedules ticker.symbol = existing →
          scheduleTradeDecision ticker existing now = ScheduleDecision.armed t →
          mapLookup (scheduleTrade ticker now o st).schedules ticker.symbol =
            some { fundingTime := t }) ∧
       (∀ (o : OpenOracle) (st : EngineState),
          mapLookup st.schedules ticker.symbol = existing →
          scheduleTradeDecision ticker existing now = ScheduleDecision.immediateOpen t →
          scheduleTrade ticker now o st =
            openPosition ticker.symbol t o
              { st with schedules := mapDelete st.schedules ticker.symbol })) := by
  intro ticker existing now t hparse
  refine ⟨scheduleTradeDecision_armed_iff ticker existing now t hparse,
    scheduleTradeDecision_immediate_iff ticker existing now t hparse,
    scheduleTradeDecision_declined_iff ticker existing now t hparse, ?_, ?_⟩
  · intro o st hex hdec
    have hdec2 : scheduleTradeDecision ticker (mapLookup st.schedules ticker.symbol) now =
        ScheduleDecision.armed t := by
      rw [hex]
      exact hdec
    simp only [scheduleTrade, hdec2]
    rw [mapLookup_set, if_pos rfl]
  · intro o st hex hdec
    have hdec2 : scheduleTradeDecision ticker (mapLookup st.schedules ticker.symbol) now =
        ScheduleDecision.immediateOpen t := by
      rw [hex]
      exact hdec
    simp only [scheduleTrade, hdec2]

theorem scheduleTrade_arming_conditions_witness :
    scheduleTradeDecision tickerC5 none 0 = ScheduleDecision.armed 8000 := by
  exact (scheduleTrade_arming_conditions tickerC5 none 0 8000 tickerC5_parse).1.mpr
    ⟨by norm_num, by norm_num, tickerC5_rate, by simp,
     by norm_num [PRE_FUNDING_MS], by norm_num [PRE_FUNDING_MS]⟩

-- ### C7: finalizePosition always clears the symbol

/-- C7: after finalizePosition completes, and likewise after the
closePosition procedure that ends in it, the active-positions map no longer
contains the symbol; the removed record carries the close-timer handle, so
the timer is cleared with it.  The oracle is universally quantified, so this
covers the success path, the caught-balance-failure path, the internal-error
path and the breach-shutdown path alike. -/
theorem finalize_clears_position :
    ∀ (st : EngineState) (sym : String) (o : FinalizeOracle) (oc : CloseOracle),
      mapLookup (finalizePosition sym o st).activePositions sym = none ∧
      mapLookup (closePosition sym oc st).activePositions sym = none := by
  intro st sym o oc
  refine ⟨finalizePosition_active_self sym o st, ?_⟩
  simp only [closePosition]
  split
  · assumption
  · exact finalizePosition_active_self sym oc.fin _

-- ### C10: summarizeExecutions

/-- The reduce step of summarizeExecutions. -/
def addSummary (a b : ExecutionSummary) : ExecutionSummary :=
  { fee := a.fee + b.fee, tradePnl := a.tradePnl + b.tradePnl }

theorem summarize_foldl_eq (oracle : String → Except Unit (List ExecutionRecord))
    (ids : List String) :
    summarizeExecutions oracle ids =
      ((jsSetDedup (ids.filter (fun s => s != ""))).map (summarizeOne oracle)).foldl
        addSummary { fee := 0, tradePnl := 0 } := rfl

theorem foldl_addSummary_acc (l : List ExecutionSummary) (a : ExecutionSummary) :
    l.foldl addSummary a =
      { fee := a.fee + (l.foldl addSummary { fee := 0, tradePnl := 0 }).fee,
        tradePnl := a.tradePnl +
          (l.foldl addSummary { fee := 0, tradePnl := 0 }).tradePnl } := by
  induction l generalizing a with
  | nil => simp [List.foldl]
  | cons x xs ih =>
    rw [List.foldl_cons, List.foldl_cons, ih (addSummary a x),
      ih (addSummary { fee := 0, tradePnl := 0 } x)]
    simp only [addSummary, ExecutionSummary.mk.injEq]
    constructor <;> ring

theorem foldl_addSummary_fee_nonneg (l : List ExecutionSummary)
    (h : ∀ s ∈ l, 0 ≤ s.fee) :
    0 ≤ (l.foldl addSummary { fee := 0, tradePnl := 0 }).fee := by
  induction l with
  | nil => simp [List.foldl]
  | cons x xs ih =>
    rw [List.foldl_cons, foldl_addSummary_acc]
    have hx := h x (by simp)
    have hxs := ih (fun s hs => h s (by simp [hs]))
    simp only [addSummary]
    positivity

theorem summarizeOne_fee_nonneg (oracle : String → Except Unit (List ExecutionRecord))
    (id : String) : 0 ≤ (summarizeOne oracle id).fee := by
  rw [summarizeOne]
  split
  · exact le_refl 0
  · exact abs_nonneg _

theorem jsSetDedup_append_mem_aux :
    ∀ (n : ℕ) (l : List String), l.length ≤ n → ∀ d ∈ l,
      jsSetDedup (l ++ [d]) = jsSetDedup l := by
  intro n
  induction n with
  | zero =>
    intro l hl d hd
    cases l with
    | nil => cases hd
    | cons x xs => simp at hl
  | succ n ih =>
    intro l hl d hd
    cases l with
    | nil => cases hd
    | cons x xs =>
      rw [List.cons_append, jsSetDedup, jsSetDedup]
      congr 1
      rw [List.filter_append]
      by_cases hdx : d = x
      · simp [hdx]
      · have hmem : d ∈ xs := by
          cases hd with
          | head => exact absurd rfl hdx
          | tail _ h => exact h
        have hfil : List.filter (fun y => y != x) [d] = [d] := by
          simp [hdx]
        rw [hfil]
        apply ih
        · have := List.length_filter_le (fun y => y != x) xs
          simp at hl
          omega
        · simp [hmem, hdx]

theorem jsSetDedup_append_mem (l : List String) (d : String) (hd : d ∈ l) :
    jsSetDedup (l ++ [d]) = jsSetDedup l :=
  jsSetDedup_append_mem_aux l.length l (le_refl _) d hd

/-- C10: summarizeExecutions returns the zero summary on an empty id list;
its fee component is nonnegative for every oracle and id list, because each
per-order fee sum is taken in absolute value; a repeated order reference is
deduplicated and never double-counts; and a reference whose execution query
fails contributes the zero summary without affecting the rest. -/
theorem summarizeExecutions_props :
    (∀ oracle, summarizeExecutions oracle [] = { fee := 0, tradePnl := 0 }) ∧
    (∀ oracle ids, 0 ≤ (summarizeExecutions oracle ids).fee) ∧
    (∀ oracle ids d, d ∈ ids →
      summarizeExecutions oracle (ids ++ [d]) = summarizeExecutions oracle ids) ∧
    (∀ oracle id ids, oracle id = Except.error () → ¬ id ∈ ids →
      summarizeExecutions oracle (id :: ids) = summarizeExecutions oracle ids) := by
  refine ⟨?_, ?_, ?_, ?_⟩
  · intro oracle
    simp [summarizeExecutions, jsSetDedup]
  · intro oracle ids
    rw [summarize_foldl_eq]
    apply foldl_addSummary_fee_nonneg
    intro s hs
    rw [List.mem_map] at hs
    obtain ⟨id, _, rfl⟩ := hs
    exact summarizeOne_fee_nonneg oracle id
  · intro oracle ids d hd
    rw [summarize_foldl_eq, summarize_foldl_eq, List.filter_append]
    by_cases hde : d = ""
    · simp [hde]
    · have hfil : List.filter (fun s => s != "") [d] = [d] := by simp [hde]
      rw [hfil, jsSetDedup_append_mem]
      simp [hd, hde]
  · intro oracle id ids herr hnot
    by_cases hide : id = ""
    · subst hide
      rw [summarize_foldl_eq, summarize_foldl_eq]
      simp
    · rw [summarize_foldl_eq, summarize_foldl_eq]
      have hstep : List.filter (fun s => s != "") (id :: ids) =
          id :: List.filter (fun s => s != "") ids := by
        simp [hide]
      rw [hstep, jsSetDedup]
      have hfil : List.filter (fun y => y != id)
          (List.filter (fun s => s != "") ids) =
          List.filter (fun s => s != "") ids := by
        apply List.filter_eq_self.mpr
        intro a ha
        have : a ∈ ids := List.mem_of_mem_filter ha
        simp
        intro h
        exact hnot (h ▸ this)
      rw [hfil, List.map_cons, List.foldl_cons]
      rw [show summarizeOne oracle id = { fee := 0, tradePnl := 0 } from by
        simp [summarizeOne, herr]]
      rw [show addSummary { fee := 0, tradePnl := 0 } { fee := 0, tradePnl := 0 } =
        { fee := 0, tradePnl := 0 } from by simp [addSummary]]

theorem summarizeExecutions_props_witness :
    summarizeExecutions (fun _ => Except.error ()) ["a", "b", "a"] =
      summarizeExecutions (fun _ => Except.error ()) ["a", "b"] ∧
    0 ≤ (summarizeExecutions (fun _ => Except.error ()) ["a", "b"]).fee := by
  constructor
  · exact summarizeExecutions_props.2.2.1 (fun _ => Except.error ()) ["a", "b"] "a"
      (by simp)
  · exact summarizeExecutions_props.2.1 (fun _ => Except.error ()) ["a", "b"]

-- ### C8: net profit of a finalized trade

/-- Entry-order executions: realized pnl 7 with fee 0.90, plus a non-Trade
row whose pnl contribution is ignored. -/
def c8EntryExecs : List ExecutionRecord :=
  [{ execFee := some (9/10), execType := "Trade", execPnl := some 7 },
   { execFee := some 0, execType := "Funding", execPnl := some 99 }]

/-- Close-order executions: realized pnl 5 with fee 0.60. -/
def c8CloseExecs : List ExecutionRecord :=
  [{ execFee := some (6/10), execType := "Trade", execPnl := some 5 }]

/-- Execution oracle for the finalized trade: gross 12.00, fees 1.50. -/
def c8Executions : String → Except Unit (List ExecutionRecord) := fun id =>
  if id = "entry1" then Except.ok c8EntryExecs
  else if id = "close1" then Except.ok c8CloseExecs
  else Except.error ()

/-- Funding history: 0.80 accrued inside the holding window and one row far
outside it, which the window filter discards. -/
def c8History : List FundingHistoryEntry :=
  [{ execTime := some 1500, fundingFee := some (4/5) },
   { execTime := some 999999, fundingFee := some 99 }]

theorem c8_entry_fee : orderFeeSum c8EntryExecs = 9/10 := by
  simp [orderFeeSum, c8EntryExecs]

theorem c8_entry_pnl : orderPnlSum c8EntryExecs = 7 := by
  simp [orderPnlSum, c8CloseExecs, c8EntryExecs]

theorem c8_close_fee : orderFeeSum c8CloseExecs = 6/10 := by
  simp [orderFeeSum, c8CloseExecs]

theorem c8_close_pnl : orderPnlSum c8CloseExecs = 5 := by
  simp [orderPnlSum, c8CloseExecs]

theorem c8_summarizeOne_entry :
    summarizeOne c8Executions "entry1" = { fee := 9/10, tradePnl := 7 } := by
  have h : c8Executions "entry1" = Except.ok c8EntryExecs := by simp [c8Executions]
  rw [summarizeOne, h]
  dsimp only
  rw [c8_entry_fee, c8_entry_pnl, abs_of_nonneg (by norm_num)]

theorem c8_summarizeOne_close :
    summarizeOne c8Executions "close1" = { fee := 6/10, tradePnl := 5 } := by
  have h : c8Executions "close1" = Except.ok c8CloseExecs := by simp [c8Executions]
  rw [summarizeOne, h]
  dsimp only
  rw [c8_close_fee, c8_close_pnl, abs_of_nonneg (by norm_num)]

theorem c8_entry_summary :
    summarizeExecutions c8Executions ["entry1"] = { fee := 9/10, tradePnl := 7 } := by
  rw [summarize_foldl_eq]
  rw [show List.filter (fun s => s != "") ["entry1"] = ["entry1"] from by simp]
  simp only [jsSetDedup, List.filter_nil, List.map_cons, List.map_nil, List.foldl_cons,
    List.foldl_nil]
  rw [c8_summarizeOne_entry]
  norm_num [addSummary]

theorem c8_close_summary :
    summarizeExecutions c8Executions ["close1"] = { fee := 6/10, tradePnl := 5 } := by
  rw [summarize_foldl_eq]
  rw [show List.filter (fun s => s != "") ["close1"] = ["close1"] from by simp]
  simp only [jsSetDedup, List.filter_nil, List.map_cons, List.map_nil, List.foldl_cons,
    List.foldl_nil]
  rw [c8_summarizeOne_close]
  norm_num [addSummary]

theorem c8_funding_fee : fetchFundingFee (Except.ok c8History) 1000 2000 = 4/5 := by
  simp only [fetchFundingFee, c8History, List.map_cons, List.map_nil]
  rw [if_neg (by norm_num), if_pos (by norm_num)]
  simp

/-- C8: the net profit computed in the built finalizePosition is gross trade
pnl minus total fees minus the funding fee, and on a trade whose execution
summaries give gross 12.00 and fees 1.50 with funding fee 0.80 the reported
net result is 9.70. -/
theorem finalize_net_pnl :
    (∀ (e c : ExecutionSummary) (f : ℚ),
      netPnl e c f = (e.tradePnl + c.tradePnl) - (e.fee + c.fee) - f) ∧
    (summarizeExecutions c8Executions ["entry1"]).tradePnl +
      (summarizeExecutions c8Executions ["close1"]).tradePnl = 12 ∧
    (summarizeExecutions c8Executions ["entry1"]).fee +
      (summarizeExecutions c8Executions ["close1"]).fee = 3/2 ∧
    fetchFundingFee (Except.ok c8History) 1000 2000 = 4/5 ∧
    netPnl (summarizeExecutions c8Executions ["entry1"])
      (summarizeExecutions c8Executions ["close1"])
      (fetchFundingFee (Except.ok c8History) 1000 2000) = 97/10 := by
  refine ⟨fun e c f => rfl, ?_, ?_, c8_funding_fee, ?_⟩
  · rw [c8_entry_summary, c8_close_summary]
    norm_num
  · rw [c8_entry_summary, c8_close_summary]
    norm_num
  · rw [c8_entry_summary, c8_close_summary, c8_funding_fee, netPnl]
    norm_num

-- ### C9: getPositionSize is nonnegative

/-- C9: getPositionSize returns a nonnegative number for every gateway
response: a parseable size is returned in absolute value (so a negative
reported size becomes positive, shown concretely for -3), a missing size
field falls back to the zero string and yields 0, an unparsable size yields
0, and fractional sizes parse exactly (2.5 yields 5/2).  This is what lets
the flat check currentSize less-or-equal 0 of the close-retry loop stop
exactly on emptied or absent positions. -/
theorem getPositionSize_nonneg :
    (∀ raw : Option String, 0 ≤ getPositionSize raw) ∧
    (∀ (s : String) (v : ℚ), jsNumber s = some v → getPositionSize (some s) = |v|) ∧
    getPositionSize (some "-3") = 3 ∧
    getPositionSize none = 0 ∧
    getPositionSize (some "junk") = 0 ∧
    getPositionSize (some "2.5") = 5/2 := by
  have habs : ∀ (s : String) (v : ℚ), jsNumber s = some v →
      getPositionSize (some s) = |v| := by
    intro s v h
    rw [getPositionSize]
    simp only [Option.getD]
    rw [h]
  refine ⟨?_, habs, ?_, ?_, ?_, ?_⟩
  · intro raw
    rw [getPositionSize]
    split
    · exact abs_nonneg _
    · exact le_refl 0
  · rw [habs "-3" (-3) ?_, abs_of_neg (by norm_num)]
    · norm_num
    · simp [jsNumber, jsNumberCore, splitAtDot, digitsToNat]
  · rw [getPositionSize]
    simp [jsNumber, jsNumberCore, splitAtDot, digitsToNat]
  · rw [getPositionSize]
    simp [jsNumber, jsNumberCore, splitAtDot, digitsToNat]
  · rw [habs "2.5" (5/2) ?_, abs_of_pos (by norm_num)]
    simp [jsNumber, jsNumberCore, splitAtDot, digitsToNat]
    norm_num

-- ### C3: the close-retry loop

theorem conformedQty_three : conformedQty 3 filtersOne = 3 := by
  simp only [conformedQty, filtersOne]
  rw [show (⌊(3 : ℚ) / 1⌋ : ℤ) = 3 from by norm_num, ceil_minUnits_one]
  norm_num

theorem normaliseQty_three : normaliseQty 3 filtersOne = Except.ok 3 := by
  rw [normaliseQty, conformedQty_three]
  norm_num [filtersOne]

theorem conformedQty_one : conformedQty 1 filtersOne = 1 := by
  simp only [conformedQty, filtersOne]
  rw [show (⌊(1 : ℚ) / 1⌋ : ℤ) = 1 from by norm_num, ceil_minUnits_one]
  norm_num

theorem normaliseQty_one : normaliseQty 1 filtersOne = Except.ok 1 := by
  rw [normaliseQty, conformedQty_one]
  norm_num [filtersOne]

/-- Snapshot cached for the close trace: a bid at 100 for the sell-to-close
side. -/
def closeTicker : BybitFundingTicker :=
  { symbol := "S", fundingRate := 1/100, fundingRateAbs := 1/100,
    bidPrice := some 100 }

theorem closeRef_eval :
    closeReferencePrice (some closeTicker) TradeSide.Sell 100 = some 100 := by
  simp only [closeReferencePrice, closeTicker, nullish, priceGate]
  rw [if_neg (fun h => by cases h)]
  norm_num

theorem placeClose_three :
    placeLimitOrder
      { symbol := "S", side := TradeSide.Sell, price := 100, qty := 3,
        reduceOnly := true }
      (Except.ok filtersOne) (Except.ok ()) "c" =
    Except.ok { orderLinkId := "c", qty := 3, price := 100 } := by
  unfold placeLimitOrder
  dsimp only
  rw [normaliseQty_three]
  dsimp only
  rw [normalisePrice_hundred]

theorem placeClose_one :
    placeLimitOrder
      { symbol := "S", side := TradeSide.Sell, price := 100, qty := 1,
        reduceOnly := true }
      (Except.ok filtersOne) (Except.ok ()) "c" =
    Except.ok { orderLinkId := "c", qty := 1, price := 100 } := by
  unfold placeLimitOrder
  dsimp only
  rw [normaliseQty_one]
  dsimp only
  rw [normalisePrice_hundred]

/-- Size readings 3, 1, 0 across attempts, venue accepting every order. -/
def closeOraclesA : ℕ → CloseAttemptOracle := fun i =>
  { size := Except.ok (([3, 1, 0] : List ℚ).getD i 0), filters := Except.ok filtersOne,
    network := Except.ok (), linkId := "c" }

/-- Size reading stuck at 3 forever, venue accepting every order. -/
def closeOraclesB : ℕ → CloseAttemptOracle := fun _ =>
  { size := Except.ok 3, filters := Except.ok filtersOne,
    network := Except.ok (), linkId := "c" }

theorem closeLoopAux_stop (sym : String) (closeSide : TradeSide) (entryPrice : ℚ)
    (ticker : Option BybitFundingTicker) (oracles : ℕ → CloseAttemptOracle)
    (fuel idx : ℕ) (q : ℚ) (h1 : (oracles idx).size = Except.ok q) (h2 : q ≤ 0) :
    closeLoopAux sym closeSide entryPrice ticker oracles (fuel + 1) idx =
      { ids := [], submissions := 0, attemptsUsed := 1 } := by
  simp only [closeLoopAux, h1]
  rw [if_pos h2]

theorem closeLoopAux_submit (sym : String) (closeSide : TradeSide) (entryPrice : ℚ)
    (ticker : Option BybitFundingTicker) (oracles : ℕ → CloseAttemptOracle)
    (fuel idx : ℕ) (q p : ℚ) (res : OrderResult)
    (h1 : (oracles idx).size = Except.ok q) (h2 : ¬ q ≤ 0)
    (h3 : closeReferencePrice ticker closeSide entryPrice = some p)
    (h4 : placeLimitOrder
        { symbol := sym, side := closeSide, price := p, qty := q,
          reduceOnly := true }
        (oracles idx).filters (oracles idx).network
        (oracles idx).linkId = Except.ok res) :
    closeLoopAux sym closeSide entryPrice ticker oracles (fuel + 1) idx =
      { ids := (if res.orderLinkId != "" then [res.orderLinkId] else []) ++
          (closeLoopAux sym closeSide entryPrice ticker oracles fuel (idx + 1)).ids,
        submissions :=
          (closeLoopAux sym closeSide entryPrice ticker oracles fuel (idx + 1)).submissions + 1,
        attemptsUsed :=
          (closeLoopAux sym closeSide entryPrice ticker oracles fuel (idx + 1)).attemptsUsed + 1 } := by
  simp only [closeLoopAux, h1, h3, h4]
  rw [if_neg h2]

theorem closeLoopAux_submissions_le (sym : String) (closeSide : TradeSide)
    (entryPrice : ℚ) (ticker : Option BybitFundingTicker)
    (oracles : ℕ → CloseAttemptOracle) :
    ∀ (fuel idx : ℕ),
      (closeLoopAux sym closeSide entryPrice ticker oracles fuel idx).submissions ≤ fuel := by
  intro fuel
  induction fuel with
  | zero =>
    intro idx
    simp [closeLoopAux]
  | succ n ih =>
    intro idx
    have hih := ih (idx + 1)
    simp only [closeLoopAux]
    split
    · simp only []
      omega
    · split
      · simp
      · split
        · simp
        · split
          · simp only []
            omega
          · simp only []
            split <;> omega

theorem closeLoop_A :
    closeLoop "S" TradeSide.Sell 100 (some closeTicker) closeOraclesA =
      { ids := ["c", "c"], submissions := 2, attemptsUsed := 3 } := by
  rw [closeLoop]
  rw [show MAX_CLOSE_ATTEMPTS = 4 + 1 from rfl]
  rw [closeLoopAux_submit "S" TradeSide.Sell 100 (some closeTicker) closeOraclesA 4 0
    3 100 { orderLinkId := "c", qty := 3, price := 100 }
    (by simp [closeOraclesA]) (by norm_num) closeRef_eval
    (by exact placeClose_three)]
  rw [show (4 : ℕ) = 3 + 1 from rfl]
  rw [closeLoopAux_submit "S" TradeSide.Sell 100 (some closeTicker) closeOraclesA 3 1
    1 100 { orderLinkId := "c", qty := 1, price := 100 }
    (by simp [closeOraclesA]) (by norm_num) closeRef_eval
    (by exact placeClose_one)]
  rw [show (3 : ℕ) = 2 + 1 from rfl]
  rw [closeLoopAux_stop "S" TradeSide.Sell 100 (some closeTicker) closeOraclesA 2 2
    0 (by simp [closeOraclesA]) (le_refl 0)]
  simp

theorem closeLoop_B_aux :
    ∀ (fuel idx : ℕ),
      closeLoopAux "S" TradeSide.Sell 100 (some closeTicker) closeOraclesB fuel idx =
        { ids := List.replicate fuel "c", submissions := fuel, attemptsUsed := fuel } := by
  intro fuel
  induction fuel with
  | zero =>
    intro idx
    simp [closeLoopAux]
  | succ n ih =>
    intro idx
    rw [closeLoopAux_submit "S" TradeSide.Sell 100 (some closeTicker) closeOraclesB n idx
      3 100 { orderLinkId := "c", qty := 3, price := 100 }
      rfl (by norm_num) closeRef_eval (by exact placeClose_three)]
    rw [ih (idx + 1)]
    simp [List.replicate_succ]

theorem closeLoop_B :
    closeLoop "S" TradeSide.Sell 100 (some closeTicker) closeOraclesB =
      { ids := List.replicate 5 "c", submissions := 5, attemptsUsed := 5 } := by
  rw [closeLoop]
  exact closeLoop_B_aux MAX_CLOSE_ATTEMPTS 0

/-- Finalize oracle for the close trace: every follow-up query fails, so the
finalizer only clears the record. -/
def c3FinOracle : FinalizeOracle :=
  { executions := fun _ => Except.error (), fundingHistory := Except.error (),
    balance := Except.error (), internalError := false, now := 0 }

/-- The full close oracle of the residual trace. -/
def closeOracleFull : CloseOracle :=
  { attempts := closeOraclesB, fin := c3FinOracle }

/-- Engine state holding one open position on S with a cached snapshot. -/
def stC : EngineState :=
  { initState 1000 with
    activePositions := [("S", posS)],
    latestTickers := [("S", closeTicker)] }

theorem closeLoop_B_inst :
    closeLoop "S" (closeSideOf posS.side) posS.entryPrice
      (mapLookup stC.latestTickers "S") closeOracleFull.attempts =
      { ids := List.replicate 5 "c", submissions := 5, attemptsUsed := 5 } := by
  rw [show closeSideOf posS.side = TradeSide.Sell from rfl,
    show posS.entryPrice = (100 : ℚ) from rfl,
    show mapLookup stC.latestTickers "S" = some closeTicker from by simp [stC, mapLookup],
    show closeOracleFull.attempts = closeOraclesB from rfl]
  exact closeLoop_B

/-- C3: for every sequence of position-size readings and order outcomes the
retry loop submits at most MAX_CLOSE_ATTEMPTS orders; a reading at or below
zero ends the loop with no further submission; with readings 3, 1, 0 exactly
two orders go out and the loop uses three of its five attempts; with a size
stuck at 3 exactly five orders go out; and after such a run closePosition
still finalizes, clearing the record, with exactly five submissions
accounted. -/
theorem close_retry_loop :
    (∀ sym closeSide entryPrice ticker oracles,
      (closeLoop sym closeSide entryPrice ticker oracles).submissions ≤
        MAX_CLOSE_ATTEMPTS) ∧
    (∀ sym closeSide entryPrice ticker oracles fuel idx (q : ℚ),
      (oracles idx).size = Except.ok q → q ≤ 0 →
      (closeLoopAux sym closeSide entryPrice ticker oracles (fuel + 1) idx).submissions
        = 0) ∧
    closeLoop "S" TradeSide.Sell 100 (some closeTicker) closeOraclesA =
      { ids := ["c", "c"], submissions := 2, attemptsUsed := 3 } ∧
    closeLoop "S" TradeSide.Sell 100 (some closeTicker) closeOraclesB =
      { ids := List.replicate 5 "c", submissions := 5, attemptsUsed := 5 } ∧
    mapLookup (closePosition "S" closeOracleFull stC).activePositions "S" = none ∧
    (closePosition "S" closeOracleFull stC).ordersSubmitted =
      stC.ordersSubmitted + 5 := by
  have hlook : mapLookup stC.activePositions "S" = some posS := by
    simp [stC, mapLookup]
  refine ⟨?_, ?_, closeLoop_A, closeLoop_B, ?_, ?_⟩
  · intro sym closeSide entryPrice ticker oracles
    exact closeLoopAux_submissions_le sym closeSide entryPrice ticker oracles
      MAX_CLOSE_ATTEMPTS 0
  · intro sym closeSide entryPrice ticker oracles fuel idx q h1 h2
    rw [closeLoopAux_stop sym closeSide entryPrice ticker oracles fuel idx q h1 h2]
  · simp only [closePosition, hlook]
    exact finalizePosition_active_self "S" closeOracleFull.fin _
  · simp only [closePosition, hlook]
    rw [finalizePosition_orders]
    rw [closeLoop_B_inst]

theorem close_retry_loop_witness :
    (closeLoopAux "S" TradeSide.Sell 100 (some closeTicker) closeOraclesA 3 2).submissions
      = 0 ∧
    (closeLoop "S" TradeSide.Sell 100 (some closeTicker) closeOraclesB).submissions ≤
      MAX_CLOSE_ATTEMPTS := by
  constructor
  · exact close_retry_loop.2.1 "S" TradeSide.Sell 100 (some closeTicker) closeOraclesA
      2 2 0 (by simp [closeOraclesA]) (le_refl 0)
  · exact close_retry_loop.1 "S" TradeSide.Sell 100 (some closeTicker) closeOraclesB

-- ### C4: a sizing failure skips the entry

/-- Venue filters whose minimum sits a hair above a whole step, the situation
in which the epsilon inside the minimum-unit ceiling leaves the conformed
quantity below the minimum. -/
def filtersTiny : InstrumentFilters :=
  { minOrderQty := 1 + 1/10000000000, qtyStep := 1, priceStep := 1 }

/-- C4: normaliseQty fails with the sizing error exactly when the conformed
quantity lies below the venue minimum; a sizing failure happens before the
order request is dispatched; and whenever the entry-order attempt of
openPosition fails with a sizing error, the entry is skipped: the
active-positions map and the count of dispatched orders are unchanged. -/
theorem sizing_error_skips_entry :
    (∀ (rawQty : ℚ) (filters : InstrumentFilters),
      normaliseQty rawQty filters = Except.error () ↔
        conformedQty rawQty filters < filters.minOrderQty) ∧
    (∀ (input : LimitOrderInput) (f : InstrumentFilters) (network : Except Unit Unit)
       (linkId : String),
      placeLimitOrder input (Except.ok f) network linkId =
          Except.error OrderError.sizingError ↔
        normaliseQty input.qty f = Except.error ()) ∧
    orderDispatched (Except.error OrderError.sizingError) = false ∧
    (∀ (st : EngineState) (sym : String) (ft : ℤ) (o : OpenOracle)
       (ticker : BybitFundingTicker) (p : ℚ),
      openResolvedTicker o st sym = some ticker →
      openReferencePrice ticker = some p →
      placeLimitOrder
        { symbol := sym, side := openSide ticker.fundingRate, price := p,
          qty := TRADE_NOTIONAL_USD / p, reduceOnly := false }
        o.filters o.network o.linkId = Except.error OrderError.sizingError →
      (openPosition sym ft o st).activePositions = st.activePositions ∧
      (openPosition sym ft o st).ordersSubmitted = st.ordersSubmitted) := by
  refine ⟨?_, ?_, rfl, ?_⟩
  · intro rawQty filters
    rw [normaliseQty]
    split_ifs with h
    · exact iff_of_true rfl h
    · exact iff_of_false (by intro hcon; cases hcon) h
  · intro input f network linkId
    constructor
    · intro h
      rcases hn : normaliseQty input.qty f with e | v
      · cases e
        rfl
      · exfalso
        unfold placeLimitOrder at h
        dsimp only at h
        rw [hn] at h
        dsimp only at h
        rcases network with _ | _ <;> simp at h
    · intro h
      unfold placeLimitOrder
      dsimp only
      rw [h]
  · intro st sym ft o ticker p hres href hplace
    simp only [openPosition]
    split
    · exact ⟨rfl, rfl⟩
    split
    · exact ⟨rfl, rfl⟩
    rw [hres]
    dsimp only
    split
    · split <;> exact ⟨rfl, rfl⟩
    rw [href]
    dsimp only
    rw [hplace]
    dsimp only
    constructor <;> split <;> simp [orderDispatched]

theorem ceil_minUnits_tiny :
    (⌈(1 + 1/10000000000 : ℚ) / 1 - 1 / 1000000000⌉ : ℤ) = 1 := by
  rw [Int.ceil_eq_iff]
  constructor <;> norm_num

theorem conformedQty_tiny : conformedQty (1/2) filtersTiny = 1 := by
  simp only [conformedQty, filtersTiny]
  rw [show (⌊(1/2 : ℚ) / 1⌋ : ℤ) = 0 from by norm_num, ceil_minUnits_tiny]
  norm_num

/-- Snapshot and oracle for the concrete sizing-failure entry: price 1000
makes the raw quantity 0.5, which conforms to 1, still below the venue
minimum of filtersTiny. -/
def tickerC4 : BybitFundingTicker :=
  { symbol := "T", fundingRate := 1/100, fundingRateAbs := 1/100,
    markPrice := some 1000 }

def oracleC4 : OpenOracle :=
  { refreshed := some (some tickerC4), filters := Except.ok filtersTiny,
    network := Except.ok (), linkId := "t1", now := 0 }

theorem conformedQty_tiny_notional :
    conformedQty (TRADE_NOTIONAL_USD / 1000) filtersTiny = 1 := by
  simp only [conformedQty, filtersTiny]
  rw [show (⌊(TRADE_NOTIONAL_USD / 1000) / (1 : ℚ)⌋ : ℤ) = 0 from by
    norm_num [TRADE_NOTIONAL_USD], ceil_minUnits_tiny]
  norm_num

theorem normaliseQty_tiny_err :
    normaliseQty (TRADE_NOTIONAL_USD / 1000) filtersTiny = Except.error () := by
  rw [normaliseQty, conformedQty_tiny_notional]
  rw [if_pos (by norm_num [filtersTiny])]

theorem openRef_tickerC4 : openReferencePrice tickerC4 = some 1000 := by
  simp only [openReferencePrice, tickerC4, nullish, priceGate]
  norm_num

theorem placeOpen_c4 :
    placeLimitOrder
      { symbol := "T", side := openSide tickerC4.fundingRate, price := 1000,
        qty := TRADE_NOTIONAL_USD / 1000, reduceOnly := false }
      oracleC4.filters oracleC4.network oracleC4.linkId =
    Except.error OrderError.sizingError := by
  rw [show oracleC4.filters = Except.ok filtersTiny from rfl]
  unfold placeLimitOrder
  dsimp only
  rw [normaliseQty_tiny_err]

theorem sizing_error_skips_entry_witness :
    (normaliseQty (1/2) filtersTiny = Except.error () ∧
     conformedQty (1/2) filtersTiny < filtersTiny.minOrderQty) ∧
    (openPosition "T" 1000 oracleC4 (initState 1000)).activePositions =
      (initState 1000).activePositions ∧
    (openPosition "T" 1000 oracleC4 (initState 1000)).ordersSubmitted =
      (initState 1000).ordersSubmitted := by
  have hlt : conformedQty (1/2) filtersTiny < filtersTiny.minOrderQty := by
    rw [conformedQty_tiny]
    norm_num [filtersTiny]
  refine ⟨⟨(sizing_error_skips_entry.1 (1/2) filtersTiny).mpr hlt, hlt⟩, ?_⟩
  exact sizing_error_skips_entry.2.2.2 (initState 1000) "T" 1000 oracleC4 tickerC4 1000
    rfl openRef_tickerC4 placeOpen_c4

-- ### C6: the per-cycle selection

theorem timeKeyLE_total (a b : Option ℤ) : (timeKeyLE a b || timeKeyLE b a) = true := by
  rcases a with _ | x <;> rcases b with _ | y <;> simp [timeKeyLE]
  exact le_total x y

theorem timeKeyLE_trans (a b c : Option ℤ) (h1 : timeKeyLE a b = true)
    (h2 : timeKeyLE b c = true) : timeKeyLE a c = true := by
  rcases a with _ | x <;> rcases b with _ | y <;> rcases c with _ | z <;>
    simp [timeKeyLE] at *
  omega

theorem tickerLE_total (a b : BybitFundingTicker) :
    (tickerLE a b || tickerLE b a) = true := by
  rw [tickerLE, tickerLE]
  by_cases h : a.fundingRateAbs = b.fundingRateAbs
  · rw [if_pos h, if_pos h.symm]
    exact timeKeyLE_total _ _
  · rw [if_neg h, if_neg (fun h2 => h h2.symm)]
    simp only [Bool.or_eq_true, decide_eq_true_eq]
    rcases lt_or_gt_of_ne h with hlt | hgt
    · exact Or.inr hlt
    · exact Or.inl hgt

theorem tickerLE_trans (a b c : BybitFundingTicker) (h1 : tickerLE a b = true)
    (h2 : tickerLE b c = true) : tickerLE a c = true := by
  rw [tickerLE] at *
  by_cases hab : a.fundingRateAbs = b.fundingRateAbs <;>
    by_cases hbc : b.fundingRateAbs = c.fundingRateAbs
  · rw [if_pos hab] at h1
    rw [if_pos hbc] at h2
    rw [if_pos (hab.trans hbc)]
    exact timeKeyLE_trans _ _ _ h1 h2
  · rw [if_neg hbc] at h2
    simp only [decide_eq_true_eq] at h2
    have hac : ¬ a.fundingRateAbs = c.fundingRateAbs := by
      rw [hab]
      exact fun h => absurd (h ▸ h2) (lt_irrefl _)
    rw [if_neg hac]
    simp only [decide_eq_true_eq]
    rw [hab]
    exact h2
  · rw [if_neg hab] at h1
    simp only [decide_eq_true_eq] at h1
    have hac : ¬ a.fundingRateAbs = c.fundingRateAbs := by
      rw [← hbc]
      exact fun h => absurd (h ▸ h1) (lt_irrefl _)
    rw [if_neg hac]
    simp only [decide_eq_true_eq]
    rw [← hbc]
    exact h1
  · rw [if_neg hab] at h1
    rw [if_neg hbc] at h2
    simp only [decide_eq_true_eq] at h1 h2
    have hlt : c.fundingRateAbs < a.fundingRateAbs := lt_trans h2 h1
    rw [if_neg (fun h => absurd (h ▸ hlt) (lt_irrefl _))]
    simp only [decide_eq_true_eq]
    exact hlt

theorem tickerLE_imp (a b : BybitFundingTicker) (h : tickerLE a b = true) :
    b.fundingRateAbs < a.fundingRateAbs ∨
      (a.fundingRateAbs = b.fundingRateAbs ∧
       timeKeyLE (parseFundingTimestamp a.nextFundingTime)
         (parseFundingTimestamp b.nextFundingTime) = true) := by
  rw [tickerLE] at h
  by_cases hr : a.fundingRateAbs = b.fundingRateAbs
  · rw [if_pos hr] at h
    exact Or.inr ⟨hr, h⟩
  · rw [if_neg hr] at h
    simp only [decide_eq_true_eq] at h
    exact Or.inl h

/-- C6 (amended): for every fetched snapshot list the selection has at most
ten entries, contains only snapshots whose nextFundingTime field is present
and nonempty, and is ordered by strictly descending absolute funding rate
with ties broken by ascending parsed funding time, an unparseable time
ordering as latest.  The amendment replaces resolvable by present: the
filter tests only truthiness of the field, not parseability. -/
theorem poll_selection_props :
    ∀ l : List BybitFundingTicker,
      (pollSelect l).length ≤ 10 ∧
      (∀ t ∈ pollSelect l, truthyStr t.nextFundingTime = true) ∧
      List.Pairwise (fun a b => b.fundingRateAbs < a.fundingRateAbs ∨
        (a.fundingRateAbs = b.fundingRateAbs ∧
         timeKeyLE (parseFundingTimestamp a.nextFundingTime)
           (parseFundingTimestamp b.nextFundingTime) = true)) (pollSelect l) := by
  intro l
  refine ⟨?_, ?_, ?_⟩
  · rw [pollSelect]
    exact List.length_take_le 10 _
  · intro t ht
    rw [pollSelect] at ht
    have h1 : t ∈ (l.filter (fun x => truthyStr x.nextFundingTime)).mergeSort tickerLE :=
      List.mem_of_mem_take ht
    have h2 : t ∈ l.filter (fun x => truthyStr x.nextFundingTime) :=
      (List.mergeSort_perm _ tickerLE).mem_iff.mp h1
    exact (List.mem_filter.mp h2).2
  · have hs : List.Pairwise (fun a b => tickerLE a b = true)
        ((l.filter (fun x => truthyStr x.nextFundingTime)).mergeSort tickerLE) :=
      List.sorted_mergeSort tickerLE_trans tickerLE_total _
    have ht : List.Pairwise (fun a b => tickerLE a b = true) (pollSelect l) :=
      List.Pairwise.sublist (List.take_sublist _ _) hs
    exact ht.imp (fun h => tickerLE_imp _ _ h)

theorem pollSelect_single (t : BybitFundingTicker)
    (h : truthyStr t.nextFundingTime = true) : pollSelect [t] = [t] := by
  rw [pollSelect]
  rw [show List.filter (fun x => truthyStr x.nextFundingTime) [t] = [t] from by simp [h]]
  rw [List.perm_singleton.mp (List.mergeSort_perm [t] tickerLE)]
  simp

/-- Snapshot with a present but unparseable nextFundingTime field: in
JavaScript, Number on this string is NaN and the Date fallback is invalid. -/
def tickerC6 : BybitFundingTicker :=
  { symbol := "BAD", fundingRate := 1/100, fundingRateAbs := 1/100,
    nextFundingTime := some "n/a" }

/-- C6 counterexample: a snapshot whose event time cannot be resolved is
nevertheless selected, because pollTickers filters on the truthiness of the
nextFundingTime field rather than on its parseability. -/
theorem poll_selection_counterexample :
    pollSelect [tickerC6] = [tickerC6] ∧
    parseFundingTimestamp tickerC6.nextFundingTime = none ∧
    truthyStr tickerC6.nextFundingTime = true := by
  refine ⟨pollSelect_single tickerC6 (by simp [tickerC6, truthyStr]), ?_, ?_⟩
  · simp [parseFundingTimestamp, digitsToNat, tickerC6]
  · simp [tickerC6, truthyStr]

/-- Snapshot with a parseable funding time, used as the selection witness. -/
def tickerC6W : BybitFundingTicker :=
  { symbol := "GOOD", fundingRate := 1/100, fundingRateAbs := 1/100,
    nextFundingTime := some "2000" }

theorem poll_selection_props_witness :
    (pollSelect [tickerC6W]).length ≤ 10 ∧
    truthyStr tickerC6W.nextFundingTime = true := by
  refine ⟨(poll_selection_props [tickerC6W]).1, ?_⟩
  exact (poll_selection_props [tickerC6W]).2.1 tickerC6W
    (by rw [pollSelect_single tickerC6W (by simp [tickerC6W, truthyStr])]; simp)

theorem getPositionSize_nonneg_witness :
    getPositionSize (some "7") = |(7 : ℚ)| ∧ 0 ≤ getPositionSize (some "7") := by
  constructor
  · exact getPositionSize_nonneg.2.1 "7" 7
      (by simp [jsNumber, jsNumberCore, splitAtDot, digitsToNat])
  · exact getPositionSize_nonneg.1 (some "7")
